import Mathlib

/-!
Shallow embedding of the VTIL-RustParser core: the binary codec of
`src/serialize.rs` over the data model of `src/pod.rs`, and the instruction
builder of `src/instr_builder.rs`.

Modelling conventions:
* a byte buffer is a `List Nat`; every read reduces each byte modulo 256
  (the Rust wire type is `u8`);
* Rust `u64`/`u32` values are `Nat`; `i64`/`i32` values are `Int`, with
  two's-complement conversions made explicit at the wire boundary;
* fallible decoding returns `Except Err`, where `Err.scroll` stands for the
  out-of-bounds read errors produced by the scroll crate, and
  `Err.malformed` / `Err.operandMismatch` mirror `Error::Malformed` /
  `Error::OperandMismatch`.  The crate's `From<str::Utf8Error> for Error`
  conversion maps UTF-8 errors to `Error::Malformed` as well, so matching
  the mnemonic as a raw byte string (all known mnemonics are ASCII) is
  error-for-error faithful to `std::str::from_utf8(..)?` followed by the
  string match;
* the encoder returns `Option (List Nat)`, failing exactly where the source
  performs a fallible `len().try_into::<u32>()`.
-/

deriving instance DecidableEq for Except

namespace VTILV

/-- Error kinds relevant to the decoder: `Error::Malformed`,
`Error::OperandMismatch`, and scroll's out-of-bounds read error. -/
inductive Err where
  | malformed
  | operandMismatch
  | scroll
deriving DecidableEq

/-- Value of a little-endian byte string (each byte taken modulo 256). -/
def leVal : List Nat → Nat
  | [] => 0
  | b :: r => b % 256 + 256 * leVal r

/-- Little-endian byte string of width `k` for the value `n % 2^(8*k)`. -/
def natToLE : Nat → Nat → List Nat
  | 0, _ => []
  | k + 1, n => n % 256 :: natToLE k (n / 256)

/-- Read `k` little-endian bytes, as scroll's `gread_with` for `uN` does. -/
def readLE (k : Nat) (bs : List Nat) : Except Err (Nat × List Nat) :=
  if k ≤ bs.length then .ok (leVal (bs.take k), bs.drop k) else .error .scroll

/-- Read a raw byte slice of length `n`, as `gread_with::<&[u8]>` does. -/
def readBytes (n : Nat) (bs : List Nat) : Except Err (List Nat × List Nat) :=
  if n ≤ bs.length then .ok ((bs.take n).map (· % 256), bs.drop n) else .error .scroll

/-- Two's-complement reading of a `bits`-wide unsigned value. -/
def toSigned (bits : Nat) (w : Nat) : Int :=
  if w < 2 ^ (bits - 1) then (w : Int) else (w : Int) - 2 ^ bits

/-- Rust `as i32` view of a wire `u32`. -/
def toI32 (w : Nat) : Int := toSigned 32 w

/-- Rust `as i64` view of a wire `u64`. -/
def toI64 (w : Nat) : Int := toSigned 64 w

/-- Little-endian byte string of width `k` of an `Int`, two's complement. -/
def intToLE (k : Nat) (i : Int) : List Nat :=
  natToLE k ((i % (2 ^ (8 * k))).toNat)

/-- Rust `usize as i64` cast (the `usize` is first reduced mod `2^64`). -/
def usizeToI64 (n : Nat) : Int := toSigned 64 (n % 2 ^ 64)

/-- Encoding of a `u32` length obtained through `len().try_into()?`:
fails when the length does not fit in a `u32`. -/
def encodeU32Checked (n : Nat) : Option (List Nat) :=
  if n < 2 ^ 32 then some (natToLE 4 n) else none

/-! ## Data model (`src/pod.rs`) -/

/-- Architecture for IL inside of VTIL routines (`ArchitectureIdentifier`). -/
inductive ArchitectureIdentifier where
  | Amd64
  | Arm64
  | Virtual
deriving DecidableEq

/-- Wire byte of an `ArchitectureIdentifier` (`self as u8`). -/
def ArchitectureIdentifier.toByte : ArchitectureIdentifier → Nat
  | .Amd64 => 0
  | .Arm64 => 1
  | .Virtual => 2

/-- Header containing metadata regarding the VTIL container. -/
structure Header where
  arch_id : ArchitectureIdentifier
deriving DecidableEq

/-- VTIL instruction pointer: `Vip(pub u64)`. -/
structure Vip where
  u : Nat
deriving DecidableEq

/-- The sentinel `Vip::invalid()`, i.e. `Vip(!0)`. -/
def Vip.invalid : Vip := ⟨2 ^ 64 - 1⟩

/-- Mask of all defined `RegisterFlags` bits (PHYSICAL .. INTERNAL,
bits 0 through 8); `RegisterFlags::all().bits()` for the bitflags type. -/
def registerFlagsMask : Nat := 0x1FF

/-- The `RegisterFlags::LOCAL` bit. -/
def flagLOCAL : Nat := 2

/-- The `RegisterFlags::STACK_POINTER` bit. -/
def flagSTACK_POINTER : Nat := 8

/-- Describes a VTIL register in an operand (`RegisterDesc`, called `Reg`
in `src/serialize.rs`).  `flags` holds the raw `u64` bit set. -/
structure RegisterDesc where
  flags : Nat
  combined_id : Nat
  bit_count : Int
  bit_offset : Int
deriving DecidableEq

/-- The register flags contain `STACK_POINTER`
(`flags.contains(RegisterFlags::STACK_POINTER)`). -/
def RegisterDesc.isSP (r : RegisterDesc) : Prop :=
  r.flags &&& flagSTACK_POINTER = flagSTACK_POINTER

instance (r : RegisterDesc) : Decidable r.isSP := by
  unfold RegisterDesc.isSP; infer_instance

/-- Operand size in bytes, rounding up: `(self.bit_count as usize + 7) / 8`
with the Rust `i32 as usize` cast made explicit. -/
def RegisterDesc.size (r : RegisterDesc) : Nat :=
  (((r.bit_count % (2 ^ 64 : Int)).toNat + 7) % 2 ^ 64) / 8

/-- The `RegisterDesc::SP` constant: flags PHYSICAL|STACK_POINTER. -/
def RegisterDesc.SP : RegisterDesc :=
  { flags := 9, combined_id := 0, bit_count := 64, bit_offset := 0 }

/-- The `RegisterDesc::FLAGS` constant: flags PHYSICAL|FLAGS. -/
def RegisterDesc.FLAGS : RegisterDesc :=
  { flags := 5, combined_id := 0, bit_count := 64, bit_offset := 0 }

/-- Describes a VTIL immediate value in an operand (`ImmediateDesc`, called
`Imm` in `src/serialize.rs`).  `value` holds the raw 64 bits of the
`u64`/`i64` union. -/
structure ImmediateDesc where
  value : Nat
  bit_count : Nat
deriving DecidableEq

/-- Construction from a `u64` (`ImmediateDesc::new`). -/
def ImmediateDesc.ofU64 (v : Nat) (bit_count : Nat) : ImmediateDesc :=
  { value := v, bit_count := bit_count }

/-- Construction from an `i64` (`ImmediateDesc::new_signed`); the stored
bits are the two's complement representation. -/
def ImmediateDesc.ofI64 (v : Int) (bit_count : Nat) : ImmediateDesc :=
  { value := (v % (2 ^ 64 : Int)).toNat, bit_count := bit_count }

/-- Operand size in bytes, rounding up: `(bit_count as usize + 7) / 8`. -/
def ImmediateDesc.size (i : ImmediateDesc) : Nat := (i.bit_count + 7) / 8

/-- VTIL instruction operand: immediate or register. -/
inductive Operand where
  | Imm : ImmediateDesc → Operand
  | Reg : RegisterDesc → Operand
deriving DecidableEq

/-- Operand size in bytes (`Operand::size`). -/
def Operand.size : Operand → Nat
  | .Imm i => i.size
  | .Reg r => r.size

/-- The operand is a register whose flags contain `STACK_POINTER`; this is
the condition of the `if let` guard at the top of
`InstructionBuilder::push`. -/
def Operand.isSPReg : Operand → Prop
  | .Imm _ => False
  | .Reg r => r.isSP

instance (o : Operand) : Decidable o.isSPReg := by
  cases o <;> (unfold Operand.isSPReg; infer_instance)

set_option maxHeartbeats 2000000 in
/-- VTIL operator and operands (`Op`), one variant per opcode. -/
inductive Op where
  | Mov : Operand → Operand → Op
  | Movsx : Operand → Operand → Op
  | Str : Operand → Operand → Operand → Op
  | Ldd : Operand → Operand → Operand → Op
  | Neg : Operand → Op
  | Add : Operand → Operand → Op
  | Sub : Operand → Operand → Op
  | Mul : Operand → Operand → Op
  | Mulhi : Operand → Operand → Op
  | Imul : Operand → Operand → Op
  | Imulhi : Operand → Operand → Op
  | Div : Operand → Operand → Operand → Op
  | Rem : Operand → Operand → Operand → Op
  | Idiv : Operand → Operand → Operand → Op
  | Irem : Operand → Operand → Operand → Op
  | Popcnt : Operand → Op
  | Bsf : Operand → Op
  | Bsr : Operand → Op
  | Not : Operand → Op
  | Shr : Operand → Operand → Op
  | Shl : Operand → Operand → Op
  | Xor : Operand → Operand → Op
  | Or : Operand → Operand → Op
  | And : Operand → Operand → Op
  | Ror : Operand → Operand → Op
  | Rol : Operand → Operand → Op
  | Tg : Operand → Operand → Operand → Op
  | Tge : Operand → Operand → Operand → Op
  | Te : Operand → Operand → Operand → Op
  | Tne : Operand → Operand → Operand → Op
  | Tl : Operand → Operand → Operand → Op
  | Tle : Operand → Operand → Operand → Op
  | Tug : Operand → Operand → Operand → Op
  | Tuge : Operand → Operand → Operand → Op
  | Tul : Operand → Operand → Operand → Op
  | Tule : Operand → Operand → Operand → Op
  | Ifs : Operand → Operand → Operand → Op
  | Js : Operand → Operand → Operand → Op
  | Jmp : Operand → Op
  | Vexit : Operand → Op
  | Vxcall : Operand → Op
  | Nop : Op
  | Sfence : Op
  | Lfence : Op
  | Vemit : Operand → Op
  | Vpinr : Operand → Op
  | Vpinw : Operand → Op
  | Vpinrm : Operand → Operand → Operand → Op
  | Vpinwm : Operand → Operand → Operand → Op
deriving DecidableEq

/-- Byte string of `Op::name()` (written out as ASCII codes; all VTIL
mnemonics are ASCII so these are exactly the UTF-8 bytes). -/
def Op.nameBytes : Op → List Nat
  | .Mov _ _ => [109, 111, 118]
  | .Movsx _ _ => [109, 111, 118, 115, 120]
  | .Str _ _ _ => [115, 116, 114]
  | .Ldd _ _ _ => [108, 100, 100]
  | .Neg _ => [110, 101, 103]
  | .Add _ _ => [97, 100, 100]
  | .Sub _ _ => [115, 117, 98]
  | .Mul _ _ => [109, 117, 108]
  | .Mulhi _ _ => [109, 117, 108, 104, 105]
  | .Imul _ _ => [105, 109, 117, 108]
  | .Imulhi _ _ => [105, 109, 117, 108, 104, 105]
  | .Div _ _ _ => [100, 105, 118]
  | .Rem _ _ _ => [114, 101, 109]
  | .Idiv _ _ _ => [105, 100, 105, 118]
  | .Irem _ _ _ => [105, 114, 101, 109]
  | .Popcnt _ => [112, 111, 112, 99, 110, 116]
  | .Bsf _ => [98, 115, 102]
  | .Bsr _ => [98, 115, 114]
  | .Not _ => [110, 111, 116]
  | .Shr _ _ => [115, 104, 114]
  | .Shl _ _ => [115, 104, 108]
  | .Xor _ _ => [120, 111, 114]
  | .Or _ _ => [111, 114]
  | .And _ _ => [97, 110, 100]
  | .Ror _ _ => [114, 111, 114]
  | .Rol _ _ => [114, 111, 108]
  | .Tg _ _ _ => [116, 103]
  | .Tge _ _ _ => [116, 103, 101]
  | .Te _ _ _ => [116, 101]
  | .Tne _ _ _ => [116, 110, 101]
  | .Tl _ _ _ => [116, 108]
  | .Tle _ _ _ => [116, 108, 101]
  | .Tug _ _ _ => [116, 117, 103]
  | .Tuge _ _ _ => [116, 117, 103, 101]
  | .Tul _ _ _ => [116, 117, 108]
  | .Tule _ _ _ => [116, 117, 108, 101]
  | .Ifs _ _ _ => [105, 102, 115]
  | .Js _ _ _ => [106, 115]
  | .Jmp _ => [106, 109, 112]
  | .Vexit _ => [118, 101, 120, 105, 116]
  | .Vxcall _ => [118, 120, 99, 97, 108, 108]
  | .Nop => [110, 111, 112]
  | .Sfence => [115, 102, 101, 110, 99, 101]
  | .Lfence => [108, 102, 101, 110, 99, 101]
  | .Vemit _ => [118, 101, 109, 105, 116]
  | .Vpinr _ => [118, 112, 105, 110, 114]
  | .Vpinw _ => [118, 112, 105, 110, 119]
  | .Vpinrm _ _ _ => [118, 112, 105, 110, 114, 109]
  | .Vpinwm _ _ _ => [118, 112, 105, 110, 119, 109]

/-- Positional operand list of an operator (`Op::operands()`). -/
def Op.operands : Op → List Operand
  | .Nop | .Sfence | .Lfence => []
  | .Neg o1 | .Popcnt o1 | .Bsf o1 | .Bsr o1 | .Not o1 | .Jmp o1
  | .Vexit o1 | .Vxcall o1 | .Vemit o1 | .Vpinr o1 | .Vpinw o1 => [o1]
  | .Mov o1 o2 | .Movsx o1 o2 | .Add o1 o2 | .Sub o1 o2 | .Mul o1 o2
  | .Mulhi o1 o2 | .Imul o1 o2 | .Imulhi o1 o2 | .Shr o1 o2 | .Shl o1 o2
  | .Xor o1 o2 | .Or o1 o2 | .And o1 o2 | .Ror o1 o2 | .Rol o1 o2 => [o1, o2]
  | .Str o1 o2 o3 | .Ldd o1 o2 o3 | .Div o1 o2 o3 | .Rem o1 o2 o3
  | .Idiv o1 o2 o3 | .Irem o1 o2 o3 | .Tg o1 o2 o3 | .Tge o1 o2 o3
  | .Te o1 o2 o3 | .Tne o1 o2 o3 | .Tl o1 o2 o3 | .Tle o1 o2 o3
  | .Tug o1 o2 o3 | .Tuge o1 o2 o3 | .Tul o1 o2 o3 | .Tule o1 o2 o3
  | .Ifs o1 o2 o3 | .Js o1 o2 o3 | .Vpinrm o1 o2 o3 | .Vpinwm o1 o2 o3 =>
    [o1, o2, o3]

/-- VTIL instruction and associated metadata (`Instruction`). -/
structure Instruction where
  op : Op
  vip : Vip
  sp_offset : Int
  sp_index : Nat
  sp_reset : Bool
deriving DecidableEq

/-- Basic block containing a linear sequence of VTIL instructions. -/
structure BasicBlock where
  vip : Vip
  sp_offset : Int
  sp_index : Nat
  last_temporary_index : Nat
  instructions : List Instruction
  prev_vip : List Vip
  next_vip : List Vip
deriving DecidableEq

/-- Allocate a temporary register for this basic block
(`BasicBlock::tmp`): a LOCAL register whose `combined_id` is the current
`last_temporary_index`, which is then incremented. -/
def BasicBlock.tmp (bb : BasicBlock) (bit_count : Int) :
    RegisterDesc × BasicBlock :=
  ({ flags := flagLOCAL, combined_id := bb.last_temporary_index,
     bit_count := bit_count, bit_offset := 0 },
   { bb with last_temporary_index := bb.last_temporary_index + 1 })

/-- Routine calling convention information and associated metadata
(`RoutineConvention`, also aliased `SubroutineConvention`). -/
structure RoutineConvention where
  volatile_registers : List RegisterDesc
  param_registers : List RegisterDesc
  retval_registers : List RegisterDesc
  frame_register : RegisterDesc
  shadow_space : Nat
  purge_stack : Bool
deriving DecidableEq

/-- VTIL routine container (`VTIL` in `src/serialize.rs`, whose decoder
materializes `explored_blocks` as the on-disk ordered block sequence). -/
structure Routine where
  header : Header
  vip : Vip
  routine_convention : RoutineConvention
  subroutine_convention : RoutineConvention
  spec_subroutine_conventions : List RoutineConvention
  explored_blocks : List BasicBlock
deriving DecidableEq

/-! ## Size precomputation (`SizeWith` impls in `src/serialize.rs`) -/

/-- Size of an encoded `ArchitectureIdentifier`: one byte. -/
def sizeArch : Nat := 1

/-- Size of an encoded `Header`: `u32` magic, arch byte, zero byte,
`u16` magic. -/
def sizeHeader : Nat := 4 + sizeArch + 1 + 2

/-- Size of an encoded `Vip`: a `u64`. -/
def sizeVip : Nat := 8

/-- Size of an encoded `RegisterDesc`: `u64`, `u64`, `i32`, `i32`. -/
def sizeReg : Nat := 8 + 8 + 4 + 4

/-- Size of an encoded `ImmediateDesc`: `u64`, `u32`. -/
def sizeImm : Nat := 8 + 4

/-- Size of an encoded `Operand`: `u32` discriminator plus the payload. -/
def sizeOperand : Operand → Nat
  | .Imm _ => 4 + sizeImm
  | .Reg _ => 4 + sizeReg

/-- Size of an encoded `Op`: `u32` name length, name bytes, `u32` operand
count, operands. -/
def sizeOp (op : Op) : Nat :=
  4 + op.nameBytes.length + 4 + (op.operands.map sizeOperand).sum

/-- Size of an encoded `Instruction`: op, vip, `i64`, `u32`, `u8`. -/
def sizeInstruction (i : Instruction) : Nat :=
  sizeOp i.op + sizeVip + 8 + 4 + 1

/-- Size of an encoded `BasicBlock`. -/
def sizeBasicBlock (b : BasicBlock) : Nat :=
  sizeVip + 8 + 4 + 4
    + (4 + (b.instructions.map sizeInstruction).sum)
    + (4 + 8 * b.prev_vip.length)
    + (4 + 8 * b.next_vip.length)

/-- Size of an encoded `RoutineConvention`. -/
def sizeConvention (c : RoutineConvention) : Nat :=
  (4 + sizeReg * c.volatile_registers.length)
    + (4 + sizeReg * c.param_registers.length)
    + (4 + sizeReg * c.retval_registers.length)
    + sizeReg + 8 + 1

/-- Size of an encoded `Routine` (`SizeWith<VTIL>`). -/
def sizeRoutine (r : Routine) : Nat :=
  sizeHeader + sizeVip
    + sizeConvention r.routine_convention
    + sizeConvention r.subroutine_convention
    + (4 + (r.spec_subroutine_conventions.map sizeConvention).sum)
    + (4 + (r.explored_blocks.map sizeBasicBlock).sum)

/-! ## Decoder (`TryFromCtx` impls in `src/serialize.rs`) -/

/-- The first VTIL magic, `VTIL_MAGIC_1`. -/
def VTIL_MAGIC_1 : Nat := 0x4c495456

/-- The second VTIL magic, `VTIL_MAGIC_2`. -/
def VTIL_MAGIC_2 : Nat := 0xdead

/-- Decode an `ArchitectureIdentifier` from a single byte in {0,1,2};
any other byte is `Error::Malformed`. -/
def decodeArch (bs : List Nat) :
    Except Err (ArchitectureIdentifier × List Nat) := do
  let (b, bs) ← readLE 1 bs
  match b with
  | 0 => .ok (.Amd64, bs)
  | 1 => .ok (.Arm64, bs)
  | 2 => .ok (.Virtual, bs)
  | _ => .error .malformed

/-- Decode a `Header`: `u32` magic (must equal `VTIL_MAGIC_1`), the
architecture byte, one zero-padding byte, `u16` magic (must equal
`VTIL_MAGIC_2`). -/
def decodeHeader (bs : List Nat) : Except Err (Header × List Nat) := do
  let (magic, bs) ← readLE 4 bs
  if magic = VTIL_MAGIC_1 then
    let (arch_id, bs) ← decodeArch bs
    let (_zero, bs) ← readLE 1 bs
    let (magic2, bs) ← readLE 2 bs
    if magic2 = VTIL_MAGIC_2 then
      .ok ({ arch_id := arch_id }, bs)
    else .error .malformed
  else .error .malformed

/-- Decode a `Vip`: a `u64`. -/
def decodeVip (bs : List Nat) : Except Err (Vip × List Nat) := do
  let (v, bs) ← readLE 8 bs
  .ok (⟨v⟩, bs)

/-- Decode a `RegisterDesc`: flags (`from_bits_truncate`, keeping only the
defined bits), `combined_id` (rejected with `Error::Malformed` when
`combined_id & (0xff << 56) > 2`), `i32` bit count and offset. -/
def decodeReg (bs : List Nat) : Except Err (RegisterDesc × List Nat) := do
  let (fw, bs) ← readLE 8 bs
  let flags := fw &&& registerFlagsMask
  let (combined_id, bs) ← readLE 8 bs
  if combined_id &&& (0xff <<< 56) > 2 then
    .error .malformed
  else
    let (bc, bs) ← readLE 4 bs
    let (bo, bs) ← readLE 4 bs
    .ok ({ flags := flags, combined_id := combined_id,
           bit_count := toI32 bc, bit_offset := toI32 bo }, bs)

/-- Decode an `ImmediateDesc`: `u64` raw value, `u32` bit count. -/
def decodeImm (bs : List Nat) : Except Err (ImmediateDesc × List Nat) := do
  let (value, bs) ← readLE 8 bs
  let (bit_count, bs) ← readLE 4 bs
  .ok ({ value := value, bit_count := bit_count }, bs)

/-- Decode an `Operand`: `u32` discriminator, 0 for immediate and 1 for
register; any other value is `Error::Malformed`. -/
def decodeOperand (bs : List Nat) : Except Err (Operand × List Nat) := do
  let (sp_index, bs) ← readLE 4 bs
  match sp_index with
  | 0 => do
    let (i, bs) ← decodeImm bs
    .ok (.Imm i, bs)
  | 1 => do
    let (r, bs) ← decodeReg bs
    .ok (.Reg r, bs)
  | _ => .error .malformed

/-- Shared shape of the 0-operand branches of `Op::try_from_ctx`
(the source inlines this block once per mnemonic). -/
def decodeOps0 (mk : Op) (cnt : Nat) (bs : List Nat) :
    Except Err (Op × List Nat) :=
  if cnt = 0 then .ok (mk, bs) else .error .operandMismatch

/-- Shared shape of the 1-operand branches of `Op::try_from_ctx`. -/
def decodeOps1 (mk : Operand → Op) (cnt : Nat) (bs : List Nat) :
    Except Err (Op × List Nat) :=
  if cnt = 1 then do
    let (o1, bs) ← decodeOperand bs
    .ok (mk o1, bs)
  else .error .operandMismatch

/-- Shared shape of the 2-operand branches of `Op::try_from_ctx`. -/
def decodeOps2 (mk : Operand → Operand → Op) (cnt : Nat) (bs : List Nat) :
    Except Err (Op × List Nat) :=
  if cnt = 2 then do
    let (o1, bs) ← decodeOperand bs
    let (o2, bs) ← decodeOperand bs
    .ok (mk o1 o2, bs)
  else .error .operandMismatch

/-- Shared shape of the 3-operand branches of `Op::try_from_ctx`. -/
def decodeOps3 (mk : Operand → Operand → Operand → Op) (cnt : Nat)
    (bs : List Nat) : Except Err (Op × List Nat) :=
  if cnt = 3 then do
    let (o1, bs) ← decodeOperand bs
    let (o2, bs) ← decodeOperand bs
    let (o3, bs) ← decodeOperand bs
    .ok (mk o1 o2 o3, bs)
  else .error .operandMismatch

/-- The name dispatch of `Op::try_from_ctx`, after the name bytes and the
operand count have been read: each known mnemonic checks the wire operand
count against its arity (failing with `Error::OperandMismatch`) and reads
that many operands; an unknown name is `Error::Malformed`.  Branches are in
source order. -/
def decodeOpBody (name : List Nat) (cnt : Nat) (bs : List Nat) :
    Except Err (Op × List Nat) :=
  if name = [109, 111, 118] then decodeOps2 .Mov cnt bs
  else if name = [109, 111, 118, 115, 120] then decodeOps2 .Movsx cnt bs
  else if name = [115, 116, 114] then decodeOps3 .Str cnt bs
  else if name = [108, 100, 100] then decodeOps3 .Ldd cnt bs
  else if name = [110, 101, 103] then decodeOps1 .Neg cnt bs
  else if name = [97, 100, 100] then decodeOps2 .Add cnt bs
  else if name = [115, 117, 98] then decodeOps2 .Sub cnt bs
  else if name = [109, 117, 108] then decodeOps2 .Mul cnt bs
  else if name = [109, 117, 108, 104, 105] then decodeOps2 .Mulhi cnt bs
  else if name = [105, 109, 117, 108] then decodeOps2 .Imul cnt bs
  else if name = [105, 109, 117, 108, 104, 105] then decodeOps2 .Imulhi cnt bs
  else if name = [100, 105, 118] then decodeOps3 .Div cnt bs
  else if name = [114, 101, 109] then decodeOps3 .Rem cnt bs
  else if name = [105, 100, 105, 118] then decodeOps3 .Idiv cnt bs
  else if name = [105, 114, 101, 109] then decodeOps3 .Irem cnt bs
  else if name = [112, 111, 112, 99, 110, 116] then decodeOps1 .Popcnt cnt bs
  else if name = [98, 115, 102] then decodeOps1 .Bsf cnt bs
  else if name = [98, 115, 114] then decodeOps1 .Bsr cnt bs
  else if name = [110, 111, 116] then decodeOps1 .Not cnt bs
  else if name = [115, 104, 114] then decodeOps2 .Shr cnt bs
  else if name = [115, 104, 108] then decodeOps2 .Shl cnt bs
  else if name = [120, 111, 114] then decodeOps2 .Xor cnt bs
  else if name = [111, 114] then decodeOps2 .Or cnt bs
  else if name = [97, 110, 100] then decodeOps2 .And cnt bs
  else if name = [114, 111, 114] then decodeOps2 .Ror cnt bs
  else if name = [114, 111, 108] then decodeOps2 .Rol cnt bs
  else if name = [116, 103] then decodeOps3 .Tg cnt bs
  else if name = [116, 103, 101] then decodeOps3 .Tge cnt bs
  else if name = [116, 101] then decodeOps3 .Te cnt bs
  else if name = [116, 110, 101] then decodeOps3 .Tne cnt bs
  else if name = [116, 108] then decodeOps3 .Tl cnt bs
  else if name = [116, 108, 101] then decodeOps3 .Tle cnt bs
  else if name = [116, 117, 103] then decodeOps3 .Tug cnt bs
  else if name = [116, 117, 103, 101] then decodeOps3 .Tuge cnt bs
  else if name = [116, 117, 108] then decodeOps3 .Tul cnt bs
  else if name = [116, 117, 108, 101] then decodeOps3 .Tule cnt bs
  else if name = [105, 102, 115] then decodeOps3 .Ifs cnt bs
  else if name = [106, 115] then decodeOps3 .Js cnt bs
  else if name = [106, 109, 112] then decodeOps1 .Jmp cnt bs
  else if name = [118, 101, 120, 105, 116] then decodeOps1 .Vexit cnt bs
  else if name = [118, 120, 99, 97, 108, 108] then decodeOps1 .Vxcall cnt bs
  else if name = [110, 111, 112] then decodeOps0 .Nop cnt bs
  else if name = [115, 102, 101, 110, 99, 101] then decodeOps0 .Sfence cnt bs
  else if name = [108, 102, 101, 110, 99, 101] then decodeOps0 .Lfence cnt bs
  else if name = [118, 101, 109, 105, 116] then decodeOps1 .Vemit cnt bs
  else if name = [118, 112, 105, 110, 114] then decodeOps1 .Vpinr cnt bs
  else if name = [118, 112, 105, 110, 119] then decodeOps1 .Vpinw cnt bs
  else if name = [118, 112, 105, 110, 114, 109] then decodeOps3 .Vpinrm cnt bs
  else if name = [118, 112, 105, 110, 119, 109] then decodeOps3 .Vpinwm cnt bs
  else .error .malformed

/-- Decode an `Op` (`Op::try_from_ctx`): `u32` name length, that many name
bytes, `u32` operand count, then the name dispatch. -/
def decodeOp (bs : List Nat) : Except Err (Op × List Nat) := do
  let (name_size, bs) ← readLE 4 bs
  let (name, bs) ← readBytes name_size bs
  let (operands_count, bs) ← readLE 4 bs
  decodeOpBody name operands_count bs

/-- Decode an `Instruction`: op, vip, `i64` sp_offset, `u32` sp_index,
`u8` sp_reset (non-zero means true). -/
def decodeInstruction (bs : List Nat) :
    Except Err (Instruction × List Nat) := do
  let (op, bs) ← decodeOp bs
  let (vip, bs) ← decodeVip bs
  let (spo, bs) ← readLE 8 bs
  let (sp_index, bs) ← readLE 4 bs
  let (spr, bs) ← readLE 1 bs
  .ok ({ op := op, vip := vip, sp_offset := toI64 spo,
         sp_index := sp_index, sp_reset := spr != 0 }, bs)

/-- Decode `n` consecutive values with the element decoder `dec`; the shape
of every `for _ in 0..count { v.push(source.gread_with(..)?) }` loop. -/
def decodeListN (dec : List Nat → Except Err (α × List Nat)) :
    Nat → List Nat → Except Err (List α × List Nat)
  | 0, bs => .ok ([], bs)
  | n + 1, bs => do
    let (x, bs) ← dec bs
    let (xs, bs) ← decodeListN dec n bs
    .ok (x :: xs, bs)

/-- Decode a `RoutineConvention`: three `u32`-counted register lists, the
frame register, `u64` shadow space, `u8` purge flag. -/
def decodeConvention (bs : List Nat) :
    Except Err (RoutineConvention × List Nat) := do
  let (nv, bs) ← readLE 4 bs
  let (volatile_registers, bs) ← decodeListN decodeReg nv bs
  let (np, bs) ← readLE 4 bs
  let (param_registers, bs) ← decodeListN decodeReg np bs
  let (nr, bs) ← readLE 4 bs
  let (retval_registers, bs) ← decodeListN decodeReg nr bs
  let (frame_register, bs) ← decodeReg bs
  let (shadow_space, bs) ← readLE 8 bs
  let (ps, bs) ← readLE 1 bs
  .ok ({ volatile_registers := volatile_registers,
         param_registers := param_registers,
         retval_registers := retval_registers,
         frame_register := frame_register,
         shadow_space := shadow_space,
         purge_stack := ps != 0 }, bs)

/-- Decode a `BasicBlock`: entry vip (`u64`), `i64` sp offset, `u32` sp
index, `u32` last temporary index, then `u32`-counted instruction,
previous-vip and next-vip lists. -/
def decodeBasicBlock (bs : List Nat) :
    Except Err (BasicBlock × List Nat) := do
  let (v, bs) ← readLE 8 bs
  let (spo, bs) ← readLE 8 bs
  let (sp_index, bs) ← readLE 4 bs
  let (last_temporary_index, bs) ← readLE 4 bs
  let (ni, bs) ← readLE 4 bs
  let (instructions, bs) ← decodeListN decodeInstruction ni bs
  let (npv, bs) ← readLE 4 bs
  let (prev_vip, bs) ← decodeListN decodeVip npv bs
  let (nnv, bs) ← readLE 4 bs
  let (next_vip, bs) ← decodeListN decodeVip nnv bs
  .ok ({ vip := ⟨v⟩, sp_offset := toI64 spo, sp_index := sp_index,
         last_temporary_index := last_temporary_index,
         instructions := instructions, prev_vip := prev_vip,
         next_vip := next_vip }, bs)

/-- Decode a whole `Routine` (`VTIL::try_from_ctx`): header, entry vip,
the two conventions, then `u32`-counted special conventions and explored
blocks in on-disk order. -/
def decodeRoutine (bs : List Nat) : Except Err (Routine × List Nat) := do
  let (header, bs) ← decodeHeader bs
  let (vip, bs) ← decodeVip bs
  let (routine_convention, bs) ← decodeConvention bs
  let (subroutine_convention, bs) ← decodeConvention bs
  let (ns, bs) ← readLE 4 bs
  let (spec_subroutine_conventions, bs) ← decodeListN decodeConvention ns bs
  let (nb, bs) ← readLE 4 bs
  let (explored_blocks, bs) ← decodeListN decodeBasicBlock nb bs
  .ok ({ header := header, vip := vip,
         routine_convention := routine_convention,
         subroutine_convention := subroutine_convention,
         spec_subroutine_conventions := spec_subroutine_conventions,
         explored_blocks := explored_blocks }, bs)

/-! ## Encoder (`TryIntoCtx` impls in `src/serialize.rs`) -/

/-- Encode an `ArchitectureIdentifier` as its single byte. -/
def encodeArch (a : ArchitectureIdentifier) : List Nat := [a.toByte]

/-- Encode a `Header`: magic, arch byte, a zero byte, second magic. -/
def encodeHeader (h : Header) : List Nat :=
  natToLE 4 VTIL_MAGIC_1 ++ encodeArch h.arch_id ++ [0] ++ natToLE 2 VTIL_MAGIC_2

/-- Encode a `Vip` as a `u64`. -/
def encodeVip (v : Vip) : List Nat := natToLE 8 v.u

/-- Encode a `RegisterDesc`: raw flag bits, combined id, `i32` bit count
and offset. -/
def encodeReg (r : RegisterDesc) : List Nat :=
  natToLE 8 r.flags ++ natToLE 8 r.combined_id
    ++ intToLE 4 r.bit_count ++ intToLE 4 r.bit_offset

/-- Encode an `ImmediateDesc`: the raw 64 value bits, `u32` bit count. -/
def encodeImm (i : ImmediateDesc) : List Nat :=
  natToLE 8 i.value ++ natToLE 4 i.bit_count

/-- Encode an `Operand`: discriminator 0/1 then the payload. -/
def encodeOperand : Operand → List Nat
  | .Imm i => natToLE 4 0 ++ encodeImm i
  | .Reg r => natToLE 4 1 ++ encodeReg r

/-- Encode an `Op`: checked `u32` name length, the name bytes, checked
`u32` operand count, then each operand in order. -/
def encodeOp (op : Op) : Option (List Nat) := do
  let nl ← encodeU32Checked op.nameBytes.length
  let cnt ← encodeU32Checked op.operands.length
  some (nl ++ op.nameBytes ++ cnt ++ (op.operands.map encodeOperand).flatten)

/-- Encode an `Instruction`: op, vip, `i64` sp offset, `u32` sp index, the
sp-reset flag as one byte. -/
def encodeInstruction (i : Instruction) : Option (List Nat) := do
  let ob ← encodeOp i.op
  some (ob ++ encodeVip i.vip ++ intToLE 8 i.sp_offset
    ++ natToLE 4 i.sp_index ++ [if i.sp_reset then 1 else 0])

/-- Encode every element of a list, concatenating the results; the shape of
every `for x in xs { sink.gwrite(x, offset)?; }` loop. -/
def encodeList (enc : α → Option (List Nat)) : List α → Option (List Nat)
  | [] => some []
  | x :: xs => do
    let b ← enc x
    let r ← encodeList enc xs
    some (b ++ r)

/-- Encode a `RoutineConvention`: three checked-length register lists, the
frame register, shadow space, purge flag. -/
def encodeConvention (c : RoutineConvention) : Option (List Nat) := do
  let nv ← encodeU32Checked c.volatile_registers.length
  let np ← encodeU32Checked c.param_registers.length
  let nr ← encodeU32Checked c.retval_registers.length
  some (nv ++ (c.volatile_registers.map encodeReg).flatten
    ++ np ++ (c.param_registers.map encodeReg).flatten
    ++ nr ++ (c.retval_registers.map encodeReg).flatten
    ++ encodeReg c.frame_register ++ natToLE 8 c.shadow_space
    ++ [if c.purge_stack then 1 else 0])

/-- Encode a `BasicBlock`. -/
def encodeBasicBlock (b : BasicBlock) : Option (List Nat) := do
  let ni ← encodeU32Checked b.instructions.length
  let ins ← encodeList encodeInstruction b.instructions
  let npv ← encodeU32Checked b.prev_vip.length
  let nnv ← encodeU32Checked b.next_vip.length
  some (encodeVip b.vip ++ intToLE 8 b.sp_offset ++ natToLE 4 b.sp_index
    ++ natToLE 4 b.last_temporary_index
    ++ ni ++ ins
    ++ npv ++ (b.prev_vip.map encodeVip).flatten
    ++ nnv ++ (b.next_vip.map encodeVip).flatten)

/-- Encode a whole `Routine` (`VTIL::try_into_ctx`). -/
def encodeRoutine (r : Routine) : Option (List Nat) := do
  let rc ← encodeConvention r.routine_convention
  let sc ← encodeConvention r.subroutine_convention
  let ns ← encodeU32Checked r.spec_subroutine_conventions.length
  let scs ← encodeList encodeConvention r.spec_subroutine_conventions
  let nb ← encodeU32Checked r.explored_blocks.length
  let blocks ← encodeList encodeBasicBlock r.explored_blocks
  some (encodeHeader r.header ++ encodeVip r.vip ++ rc ++ sc
    ++ ns ++ scs ++ nb ++ blocks)

/-! ## Well-formedness invariants established by the decoder -/

/-- The `Int` is a representable `i32` value. -/
def i32Range (i : Int) : Prop := -(2 ^ 31) ≤ i ∧ i < 2 ^ 31

/-- The `Int` is a representable `i64` value. -/
def i64Range (i : Int) : Prop := -(2 ^ 63) ≤ i ∧ i < 2 ^ 63

/-- Register invariant established by `Reg::try_from_ctx`: the flags use
only defined bits, the combined id is a `u64` passing the decoder's check,
and the bit fields are `i32` values. -/
def WFReg (r : RegisterDesc) : Prop :=
  r.flags &&& registerFlagsMask = r.flags
    ∧ r.combined_id < 2 ^ 64
    ∧ r.combined_id &&& (0xff <<< 56) ≤ 2
    ∧ i32Range r.bit_count ∧ i32Range r.bit_offset

/-- Immediate invariant: value fits `u64`, bit count fits `u32`. -/
def WFImm (i : ImmediateDesc) : Prop :=
  i.value < 2 ^ 64 ∧ i.bit_count < 2 ^ 32

/-- Operand invariant. -/
def WFOperand : Operand → Prop
  | .Imm i => WFImm i
  | .Reg r => WFReg r

/-- Operator invariant: every operand is well formed. -/
def WFOp (op : Op) : Prop := ∀ o ∈ op.operands, WFOperand o

/-- Instruction invariant. -/
def WFInstruction (i : Instruction) : Prop :=
  WFOp i.op ∧ i.vip.u < 2 ^ 64 ∧ i64Range i.sp_offset ∧ i.sp_index < 2 ^ 32

/-- Basic-block invariant: scalars in range, `u32`-sized sequences,
well-formed elements. -/
def WFBasicBlock (b : BasicBlock) : Prop :=
  b.vip.u < 2 ^ 64 ∧ i64Range b.sp_offset ∧ b.sp_index < 2 ^ 32
    ∧ b.last_temporary_index < 2 ^ 32
    ∧ b.instructions.length < 2 ^ 32
    ∧ (∀ i ∈ b.instructions, WFInstruction i)
    ∧ b.prev_vip.length < 2 ^ 32 ∧ (∀ v ∈ b.prev_vip, v.u < 2 ^ 64)
    ∧ b.next_vip.length < 2 ^ 32 ∧ (∀ v ∈ b.next_vip, v.u < 2 ^ 64)

/-- Calling-convention invariant. -/
def WFConvention (c : RoutineConvention) : Prop :=
  c.volatile_registers.length < 2 ^ 32
    ∧ (∀ r ∈ c.volatile_registers, WFReg r)
    ∧ c.param_registers.length < 2 ^ 32
    ∧ (∀ r ∈ c.param_registers, WFReg r)
    ∧ c.retval_registers.length < 2 ^ 32
    ∧ (∀ r ∈ c.retval_registers, WFReg r)
    ∧ WFReg c.frame_register ∧ c.shadow_space < 2 ^ 64

/-- Routine invariant. -/
def WFRoutine (r : Routine) : Prop :=
  r.vip.u < 2 ^ 64
    ∧ WFConvention r.routine_convention
    ∧ WFConvention r.subroutine_convention
    ∧ r.spec_subroutine_conventions.length < 2 ^ 32
    ∧ (∀ c ∈ r.spec_subroutine_conventions, WFConvention c)
    ∧ r.explored_blocks.length < 2 ^ 32
    ∧ (∀ b ∈ r.explored_blocks, WFBasicBlock b)

/-! ## Instruction builder (`src/instr_builder.rs`) -/

/-- The enforced push/pop stack alignment,
`VTIL_ARCH_POPPUSH_ENFORCED_STACK_ALIGN`. -/
def STACK_ALIGN : Nat := 2

/-- Builder for VTIL instructions in an associated basic block
(`InstructionBuilder`): a pending insertion vip plus the block. -/
structure Builder where
  vip : Vip
  bb : BasicBlock
deriving DecidableEq

/-- Build an `InstructionBuilder` from an existing basic block
(`InstructionBuilder::from`): the pending vip starts invalid. -/
def Builder.from (bb : BasicBlock) : Builder :=
  { vip := Vip.invalid, bb := bb }

/-- Helper for inserting instructions with no associated metadata
(`insert_instr`): the instruction consumes the pending vip (resetting it to
the invalid sentinel) and copies the block's current `sp_offset` and
`sp_index`; `sp_reset` is false. -/
def insertInstr (b : Builder) (op : Op) : Builder :=
  let vip := b.vip
  let b := if b.vip ≠ Vip.invalid then { b with vip := Vip.invalid } else b
  { b with bb := { b.bb with instructions := b.bb.instructions
      ++ [{ op := op, vip := vip, sp_offset := b.bb.sp_offset,
            sp_index := b.bb.sp_index, sp_reset := false }] } }

/-- Queues a stack shift (`InstructionBuilder::shift_sp`). -/
def Builder.shiftSp (b : Builder) (offset : Int) : Builder :=
  { b with bb := { b.bb with sp_offset := b.bb.sp_offset + offset } }

/-- Insert an `Op::Mov` (`InstructionBuilder::mov`). -/
def Builder.mov (b : Builder) (op1 : RegisterDesc) (op2 : Operand) : Builder :=
  insertInstr b (.Mov (.Reg op1) op2)

/-- Insert an `Op::Str` (`InstructionBuilder::str`). -/
def Builder.str (b : Builder) (op1 : RegisterDesc) (op2 : ImmediateDesc)
    (op3 : Operand) : Builder :=
  insertInstr b (.Str (.Reg op1) (.Imm op2) op3)

/-- Insert an `Op::Ldd` (`InstructionBuilder::ldd`). -/
def Builder.ldd (b : Builder) (op1 : RegisterDesc) (op2 : RegisterDesc)
    (op3 : ImmediateDesc) : Builder :=
  insertInstr b (.Ldd (.Reg op1) (.Reg op2) (.Imm op3))

/-- The non-STACK_POINTER lowering path of `InstructionBuilder::push`: pad
an odd-sized operand with a zero-fill store, then shift the stack pointer
down by the operand size and store the operand at the new offset.  The
padding immediate is `ImmediateDesc::new(0u64, padding_size as u32 * 8)`
and both store offsets are the block's current (already shifted)
`sp_offset` converted through `From<i64> for ImmediateDesc`. -/
def Builder.pushStep (b : Builder) (op1 : Operand) : Builder :=
  let misalignment : Int := op1.size % STACK_ALIGN
  let b :=
    if misalignment ≠ 0 then
      let padding_size : Int := (STACK_ALIGN : Int) - misalignment
      let b := b.shiftSp (-padding_size)
      b.str RegisterDesc.SP (ImmediateDesc.ofI64 b.bb.sp_offset 64)
        (.Imm (ImmediateDesc.ofU64 0 (padding_size.toNat * 8)))
    else b
  let b := b.shiftSp (-(usizeToI64 op1.size))
  b.str RegisterDesc.SP (ImmediateDesc.ofI64 b.bb.sp_offset 64) op1

/-- Pushes an operand up the stack queueing the shift in the stack pointer
(`InstructionBuilder::push`).  In the source the STACK_POINTER case ends in
the recursive call `self.mov(tmp0, op1).push(tmp0.into())`; since `tmp0` is
a freshly allocated LOCAL temporary (its flags never contain
STACK_POINTER), that recursive call always takes the non-SP path, which the
embedding reflects by calling `pushStep` directly. -/
def Builder.push (b : Builder) (op1 : Operand) : Builder :=
  if op1.isSPReg then
    let t := b.bb.tmp 64
    let b := { b with bb := t.2 }
    (b.mov t.1 op1).pushStep (.Reg t.1)
  else
    b.pushStep op1

/-- Pops an operand from the stack queueing the shift in the stack pointer
(`InstructionBuilder::pop`): the load offset is captured from `sp_offset`
at entry, before the misalignment and size shifts. -/
def Builder.pop (b : Builder) (op1 : RegisterDesc) : Builder :=
  let offset := b.bb.sp_offset
  let misalignment : Int := op1.size % STACK_ALIGN
  let b :=
    if misalignment ≠ 0 then
      b.shiftSp ((STACK_ALIGN : Int) - misalignment)
    else b
  let b := b.shiftSp (usizeToI64 op1.size)
  b.ldd op1 RegisterDesc.SP (ImmediateDesc.ofI64 offset 64)

/-- Push flags register (`InstructionBuilder::pushf`):
`self.push(RegisterDesc::FLAGS.into())`. -/
def Builder.pushf (b : Builder) : Builder :=
  b.push (.Reg RegisterDesc.FLAGS)

/-- Pop flags register (`InstructionBuilder::popf`); the source body is
`self.push(RegisterDesc::FLAGS.into())` — it pushes instead of popping. -/
def Builder.popf (b : Builder) : Builder :=
  b.push (.Reg RegisterDesc.FLAGS)

/-- The known mnemonics, as byte strings, in the order of the decoder's
match in `Op::try_from_ctx`. -/
def opNames : List (List Nat) :=
  [[109, 111, 118],
   [109, 111, 118, 115, 120],
   [115, 116, 114],
   [108, 100, 100],
   [110, 101, 103],
   [97, 100, 100],
   [115, 117, 98],
   [109, 117, 108],
   [109, 117, 108, 104, 105],
   [105, 109, 117, 108],
   [105, 109, 117, 108, 104, 105],
   [100, 105, 118],
   [114, 101, 109],
   [105, 100, 105, 118],
   [105, 114, 101, 109],
   [112, 111, 112, 99, 110, 116],
   [98, 115, 102],
   [98, 115, 114],
   [110, 111, 116],
   [115, 104, 114],
   [115, 104, 108],
   [120, 111, 114],
   [111, 114],
   [97, 110, 100],
   [114, 111, 114],
   [114, 111, 108],
   [116, 103],
   [116, 103, 101],
   [116, 101],
   [116, 110, 101],
   [116, 108],
   [116, 108, 101],
   [116, 117, 103],
   [116, 117, 103, 101],
   [116, 117, 108],
   [116, 117, 108, 101],
   [105, 102, 115],
   [106, 115],
   [106, 109, 112],
   [118, 101, 120, 105, 116],
   [118, 120, 99, 97, 108, 108],
   [110, 111, 112],
   [115, 102, 101, 110, 99, 101],
   [108, 102, 101, 110, 99, 101],
   [118, 101, 109, 105, 116],
   [118, 112, 105, 110, 114],
   [118, 112, 105, 110, 119],
   [118, 112, 105, 110, 114, 109],
   [118, 112, 105, 110, 119, 109]]

/-- A name is a known mnemonic of the decoder's match. -/
def isKnownName (name : List Nat) : Prop := name ∈ opNames

instance (name : List Nat) : Decidable (isKnownName name) := by
  unfold isKnownName; infer_instance

/-- Canonical operand arity of each known mnemonic (0 for unknown
names); the counts checked by the decoder's branches. -/
def canonicalArity (name : List Nat) : Nat :=
  if name = [109, 111, 118] then 2
  else if name = [109, 111, 118, 115, 120] then 2
  else if name = [115, 116, 114] then 3
  else if name = [108, 100, 100] then 3
  else if name = [110, 101, 103] then 1
  else if name = [97, 100, 100] then 2
  else if name = [115, 117, 98] then 2
  else if name = [109, 117, 108] then 2
  else if name = [109, 117, 108, 104, 105] then 2
  else if name = [105, 109, 117, 108] then 2
  else if name = [105, 109, 117, 108, 104, 105] then 2
  else if name = [100, 105, 118] then 3
  else if name = [114, 101, 109] then 3
  else if name = [105, 100, 105, 118] then 3
  else if name = [105, 114, 101, 109] then 3
  else if name = [112, 111, 112, 99, 110, 116] then 1
  else if name = [98, 115, 102] then 1
  else if name = [98, 115, 114] then 1
  else if name = [110, 111, 116] then 1
  else if name = [115, 104, 114] then 2
  else if name = [115, 104, 108] then 2
  else if name = [120, 111, 114] then 2
  else if name = [111, 114] then 2
  else if name = [97, 110, 100] then 2
  else if name = [114, 111, 114] then 2
  else if name = [114, 111, 108] then 2
  else if name = [116, 103] then 3
  else if name = [116, 103, 101] then 3
  else if name = [116, 101] then 3
  else if name = [116, 110, 101] then 3
  else if name = [116, 108] then 3
  else if name = [116, 108, 101] then 3
  else if name = [116, 117, 103] then 3
  else if name = [116, 117, 103, 101] then 3
  else if name = [116, 117, 108] then 3
  else if name = [116, 117, 108, 101] then 3
  else if name = [105, 102, 115] then 3
  else if name = [106, 115] then 3
  else if name = [106, 109, 112] then 1
  else if name = [118, 101, 120, 105, 116] then 1
  else if name = [118, 120, 99, 97, 108, 108] then 1
  else if name = [110, 111, 112] then 0
  else if name = [115, 102, 101, 110, 99, 101] then 0
  else if name = [108, 102, 101, 110, 99, 101] then 0
  else if name = [118, 101, 109, 105, 116] then 1
  else if name = [118, 112, 105, 110, 114] then 1
  else if name = [118, 112, 105, 110, 119] then 1
  else if name = [118, 112, 105, 110, 114, 109] then 3
  else if name = [118, 112, 105, 110, 119, 109] then 3
  else 0


/-- An empty basic block at vip 0 with a zeroed stack frame, the starting
state of the builder examples. -/
def emptyBlock : BasicBlock :=
  { vip := ⟨0⟩, sp_offset := 0, sp_index := 0, last_temporary_index := 0,
    instructions := [], prev_vip := [], next_vip := [] }

/-- A 1-byte (8-bit) PHYSICAL register. -/
def reg8 : RegisterDesc :=
  { flags := 1, combined_id := 0, bit_count := 8, bit_offset := 0 }

/-- A minimal calling convention with empty register lists. -/
def sampleConvention : RoutineConvention :=
  { volatile_registers := [], param_registers := [],
    retval_registers := [], frame_register := RegisterDesc.SP,
    shadow_space := 0, purge_stack := false }

/-- A minimal concrete routine used to instantiate the codec theorems. -/
def sampleRoutine : Routine :=
  { header := { arch_id := .Amd64 }, vip := ⟨0⟩,
    routine_convention := sampleConvention,
    subroutine_convention := sampleConvention,
    spec_subroutine_conventions := [], explored_blocks := [] }

/-- The byte image of `sampleRoutine`. -/
def sampleBytes : List Nat := (encodeRoutine sampleRoutine).getD []

/-! ## Lemmas: byte-level primitives -/

theorem ok_bind {ε α β : Type} (a : α) (f : α → Except ε β) :
    (Except.ok a >>= f) = f a := rfl

theorem error_bind {ε α β : Type} (e : ε) (f : α → Except ε β) :
    ((Except.error e : Except ε α) >>= f) = Except.error e := rfl

theorem bind_eq_ok {ε α β : Type} {x : Except ε α} {f : α → Except ε β}
    {b : β} : (x >>= f) = .ok b ↔ ∃ a, x = .ok a ∧ f a = .ok b := by
  cases x <;> simp [Bind.bind, Except.bind]

theorem natToLE_length (k n : Nat) : (natToLE k n).length = k := by
  induction k generalizing n with
  | zero => rfl
  | succ k ih => simp [natToLE, ih]

theorem pow_mul_256 (k : Nat) : 2 ^ (8 * (k + 1)) = 256 * 2 ^ (8 * k) := by
  have : 8 * (k + 1) = 8 + 8 * k := by ring
  rw [this, pow_add]
  norm_num

theorem leVal_natToLE (k n : Nat) : leVal (natToLE k n) = n % 2 ^ (8 * k) := by
  induction k generalizing n with
  | zero => simp [natToLE, leVal, Nat.mod_one]
  | succ k ih =>
    have h256 : n % 256 % 256 = n % 256 := by omega
    rw [natToLE, leVal, ih, h256, pow_mul_256, Nat.mod_mul]

theorem leVal_lt (l : List Nat) : leVal l < 2 ^ (8 * l.length) := by
  induction l with
  | nil => simp [leVal]
  | cons b r ih =>
    have hb : b % 256 < 256 := Nat.mod_lt _ (by norm_num)
    rw [leVal, List.length_cons, pow_mul_256]
    omega

theorem natToLE_leVal_inj {k a b : Nat} (ha : a < 2 ^ (8 * k))
    (hb : b < 2 ^ (8 * k)) (h : natToLE k a = natToLE k b) : a = b := by
  have := congrArg leVal h
  rwa [leVal_natToLE, leVal_natToLE, Nat.mod_eq_of_lt ha,
    Nat.mod_eq_of_lt hb] at this

theorem readLE_append (k n : Nat) (t : List Nat) :
    readLE k (natToLE k n ++ t) = .ok (n % 2 ^ (8 * k), t) := by
  have hl := natToLE_length k n
  rw [readLE, if_pos (by simp [hl]), List.take_left' hl,
    List.drop_left' hl, leVal_natToLE]

theorem readLE_ok {k : Nat} {bs v rest : _} (h : readLE k bs = .ok (v, rest)) :
    v < 2 ^ (8 * k) ∧ bs.length = k + rest.length := by
  rw [readLE] at h
  split at h
  · obtain ⟨rfl, rfl⟩ := Prod.mk.injEq .. ▸ Except.ok.inj h
    refine ⟨?_, ?_⟩
    · have := leVal_lt (bs.take k)
      have hlen : (bs.take k).length = k := by
        simp; omega
      rwa [hlen] at this
    · simp; omega
  · exact absurd h (by simp)

theorem readBytes_ok {n : Nat} {bs nm rest : _}
    (h : readBytes n bs = .ok (nm, rest)) :
    nm.length = n ∧ bs.length = n + rest.length := by
  rw [readBytes] at h
  split at h
  · obtain ⟨rfl, rfl⟩ := Prod.mk.injEq .. ▸ Except.ok.inj h
    refine ⟨?_, ?_⟩
    · simp; omega
    · simp; omega
  · exact absurd h (by simp)

theorem readBytes_append {nm : List Nat} (hm : nm.map (· % 256) = nm)
    (t : List Nat) : readBytes nm.length (nm ++ t) = .ok (nm, t) := by
  rw [readBytes, if_pos (by simp), List.take_left, List.drop_left, hm]

theorem toI32_range {w : Nat} (h : w < 2 ^ 32) : i32Range (toI32 w) := by
  rw [toI32, toSigned, i32Range]
  norm_num
  split <;> omega

theorem toI64_range {w : Nat} (h : w < 2 ^ 64) : i64Range (toI64 w) := by
  rw [toI64, toSigned, i64Range]
  norm_num
  split <;> omega

theorem intToLE_toI32 {w : Nat} (h : w < 2 ^ 32) :
    intToLE 4 (toI32 w) = natToLE 4 w := by
  rw [intToLE, toI32, toSigned]
  congr 1
  norm_num
  split <;> omega

theorem intToLE_toI64 {w : Nat} (h : w < 2 ^ 64) :
    intToLE 8 (toI64 w) = natToLE 8 w := by
  rw [intToLE, toI64, toSigned]
  congr 1
  norm_num
  split <;> omega

theorem intToLE_length (k : Nat) (i : Int) : (intToLE k i).length = k := by
  rw [intToLE, natToLE_length]

theorem readLE_intToLE_i32 {i : Int} (h : i32Range i) (t : List Nat) :
    readLE 4 (intToLE 4 i ++ t) = .ok ((i % 2 ^ 32).toNat, t) := by
  rw [intToLE, readLE_append]
  congr 2
  norm_num
  omega

theorem toI32_emod {i : Int} (h : i32Range i) :
    toI32 (i % 2 ^ 32).toNat = i := by
  rw [i32Range] at h
  rw [toI32, toSigned]
  norm_num
  split <;> omega

theorem readLE_intToLE_i64 {i : Int} (h : i64Range i) (t : List Nat) :
    readLE 8 (intToLE 8 i ++ t) = .ok ((i % 2 ^ 64).toNat, t) := by
  rw [intToLE, readLE_append]
  congr 2
  norm_num
  omega

theorem toI64_emod {i : Int} (h : i64Range i) :
    toI64 (i % 2 ^ 64).toNat = i := by
  rw [i64Range] at h
  rw [toI64, toSigned]
  norm_num
  split <;> omega

/-! ## Lemmas: leaf entities of the codec -/

theorem pow88 : (2 : Nat) ^ (8 * 8) = 2 ^ 64 := by norm_num

theorem pow84 : (2 : Nat) ^ (8 * 4) = 2 ^ 32 := by norm_num

theorem pow82 : (2 : Nat) ^ (8 * 2) = 2 ^ 16 := by norm_num

theorem pow81 : (2 : Nat) ^ (8 * 1) = 2 ^ 8 := by norm_num

theorem readLE_one (b : Nat) (t : List Nat) :
    readLE 1 (b :: t) = .ok (b % 256, t) := by
  rw [readLE, if_pos (by simp)]
  simp [leVal]

theorem decodeArch_ok {bs : List Nat} {a rest} (h : decodeArch bs = .ok (a, rest)) :
    bs.length = sizeArch + rest.length := by
  rw [decodeArch] at h
  cases hre : readLE 1 bs with
  | error e => rw [hre, error_bind] at h; cases h
  | ok p =>
    obtain ⟨b, bs1⟩ := p
    rw [hre, ok_bind] at h
    have hl := (readLE_ok hre).2
    rw [sizeArch]
    match b, h with
    | 0, h => simp_all
    | 1, h => simp_all
    | 2, h => simp_all
    | (n + 3), h => simp_all

theorem decodeArch_enc (a : ArchitectureIdentifier) (t : List Nat) :
    decodeArch (encodeArch a ++ t) = .ok (a, t) := by
  cases a <;>
    simp [decodeArch, encodeArch, ArchitectureIdentifier.toByte,
      readLE_one, ok_bind]

theorem encodeArch_length (a : ArchitectureIdentifier) :
    (encodeArch a).length = sizeArch := by
  cases a <;> rfl

theorem magic1_mod : VTIL_MAGIC_1 % 2 ^ (8 * 4) = VTIL_MAGIC_1 := by
  norm_num [VTIL_MAGIC_1]

theorem magic2_mod : VTIL_MAGIC_2 % 2 ^ (8 * 2) = VTIL_MAGIC_2 := by
  norm_num [VTIL_MAGIC_2]

theorem decodeVip_ok {bs : List Nat} {v rest} (h : decodeVip bs = .ok (v, rest)) :
    v.u < 2 ^ 64 ∧ bs.length = sizeVip + rest.length := by
  rw [decodeVip, bind_eq_ok] at h
  obtain ⟨⟨w, bs1⟩, h1, h2⟩ := h
  obtain ⟨hw, hl⟩ := readLE_ok h1
  obtain ⟨rfl, rfl⟩ := Prod.mk.injEq .. ▸ Except.ok.inj h2
  rw [pow88] at hw
  exact ⟨hw, by rw [sizeVip]; omega⟩

theorem decodeVip_enc {v : Vip} (hv : v.u < 2 ^ 64) (t : List Nat) :
    decodeVip (encodeVip v ++ t) = .ok (v, t) := by
  rw [encodeVip, decodeVip, readLE_append, ok_bind, pow88,
    Nat.mod_eq_of_lt hv]

theorem encodeVip_length (v : Vip) : (encodeVip v).length = sizeVip := by
  rw [encodeVip, natToLE_length, sizeVip]

theorem decodeImm_ok {bs : List Nat} {i rest} (h : decodeImm bs = .ok (i, rest)) :
    WFImm i ∧ bs.length = sizeImm + rest.length := by
  rw [decodeImm, bind_eq_ok] at h
  obtain ⟨⟨w, bs1⟩, h1, h2⟩ := h
  rw [bind_eq_ok] at h2
  obtain ⟨⟨bc, bs2⟩, h3, h4⟩ := h2
  obtain ⟨hw, hl1⟩ := readLE_ok h1
  obtain ⟨hbc, hl2⟩ := readLE_ok h3
  obtain ⟨rfl, rfl⟩ := Prod.mk.injEq .. ▸ Except.ok.inj h4
  rw [pow88] at hw
  rw [pow84] at hbc
  exact ⟨⟨hw, hbc⟩, by rw [sizeImm]; omega⟩

theorem decodeImm_enc {i : ImmediateDesc} (h : WFImm i) (t : List Nat) :
    decodeImm (encodeImm i ++ t) = .ok (i, t) := by
  obtain ⟨hv, hbc⟩ := h
  simp only [encodeImm, List.append_assoc, decodeImm, readLE_append, ok_bind,
    pow88, pow84, Nat.mod_eq_of_lt hv, Nat.mod_eq_of_lt hbc]

theorem encodeImm_length (i : ImmediateDesc) :
    (encodeImm i).length = sizeImm := by
  rw [encodeImm, sizeImm]
  simp [natToLE_length]

theorem decodeHeader_ok {bs : List Nat} {h rest}
    (hd : decodeHeader bs = .ok (h, rest)) :
    bs.length = sizeHeader + rest.length := by
  rw [decodeHeader] at hd
  simp only [bind_eq_ok, Prod.exists] at hd
  obtain ⟨m1, bs1, h1, hd⟩ := hd
  have hl1 := (readLE_ok h1).2
  split at hd
  · simp only [bind_eq_ok, Prod.exists] at hd
    obtain ⟨a, bs2, h3, z, bs3, h5, m2, bs4, h7, hd⟩ := hd
    have hl2 := decodeArch_ok h3
    have hl3 := (readLE_ok h5).2
    have hl4 := (readLE_ok h7).2
    split at hd
    · obtain ⟨rfl, rfl⟩ := Prod.mk.injEq .. ▸ Except.ok.inj hd
      rw [sizeHeader, sizeArch]
      rw [sizeArch] at hl2
      omega
    · exact absurd hd (by simp)
  · exact absurd hd (by simp)

theorem stepBind {α β : Type} {x : Except Err α} {f : α → Except Err β}
    {a : α} {y : Except Err β} (h1 : x = .ok a) (h2 : f a = y) :
    (x >>= f) = y := by
  rw [h1, ok_bind, h2]

theorem stepIte {c : Prop} [Decidable c] {α : Type} {t e y : α}
    (hc : c) (h : t = y) : (if c then t else e) = y := by
  rw [if_pos hc, h]

theorem readLE_append_lt {n k : Nat} (h : n < 2 ^ (8 * k)) (t : List Nat) :
    readLE k (natToLE k n ++ t) = .ok (n, t) := by
  rw [readLE_append, Nat.mod_eq_of_lt h]

theorem decodeHeader_enc (h : Header) (t : List Nat) :
    decodeHeader (encodeHeader h ++ t) = .ok (h, t) := by
  obtain ⟨a⟩ := h
  simp only [encodeHeader, List.append_assoc, List.cons_append,
    List.nil_append]
  rw [decodeHeader]
  refine stepBind (readLE_append_lt (by norm_num [VTIL_MAGIC_1]) _) ?_
  refine stepIte rfl ?_
  refine stepBind (decodeArch_enc a _) ?_
  refine stepBind (readLE_one 0 _) ?_
  refine stepBind (readLE_append_lt (by norm_num [VTIL_MAGIC_2]) _) ?_
  refine stepIte rfl ?_
  rfl

theorem encodeHeader_length (h : Header) :
    (encodeHeader h).length = sizeHeader := by
  obtain ⟨a⟩ := h
  cases a <;> rfl

theorem decodeReg_ok {bs : List Nat} {r rest}
    (h : decodeReg bs = .ok (r, rest)) :
    WFReg r ∧ bs.length = sizeReg + rest.length := by
  rw [decodeReg] at h
  simp only [bind_eq_ok, Prod.exists] at h
  obtain ⟨fw, bs1, h1, h⟩ := h
  obtain ⟨cid, bs2, h3, h⟩ := h
  split at h
  · exact absurd h (by simp)
  · simp only [bind_eq_ok, Prod.exists] at h
    obtain ⟨bc, bs3, h5, bo, bs4, h7, h⟩ := h
    obtain ⟨hfw, hl1⟩ := readLE_ok h1
    obtain ⟨hcid, hl2⟩ := readLE_ok h3
    obtain ⟨hbc, hl3⟩ := readLE_ok h5
    obtain ⟨hbo, hl4⟩ := readLE_ok h7
    obtain ⟨rfl, rfl⟩ := Prod.mk.injEq .. ▸ Except.ok.inj h
    rw [pow88] at hfw hcid
    rw [pow84] at hbc hbo
    refine ⟨⟨?_, hcid, ?_, ?_, ?_⟩, ?_⟩
    · show fw &&& registerFlagsMask &&& registerFlagsMask
        = fw &&& registerFlagsMask
      rw [Nat.and_assoc]
      norm_num [registerFlagsMask]
    · exact (show cid &&& (0xff <<< 56) ≤ 2 by omega)
    · exact toI32_range hbc
    · exact toI32_range hbo
    · rw [sizeReg]; omega

theorem decodeReg_enc {r : RegisterDesc} (h : WFReg r) (t : List Nat) :
    decodeReg (encodeReg r ++ t) = .ok (r, t) := by
  obtain ⟨hf, hcid, hchk, hbc, hbo⟩ := h
  have hflt : r.flags < 2 ^ 64 := by
    rw [← hf]
    exact Nat.and_lt_two_pow _ (by norm_num [registerFlagsMask])
  have hno : ¬ (r.combined_id &&& (0xff <<< 56) > 2) := Nat.not_lt.mpr hchk
  simp only [encodeReg, List.append_assoc, decodeReg, readLE_append, ok_bind,
    pow88, Nat.mod_eq_of_lt hflt, Nat.mod_eq_of_lt hcid, hno, if_false,
    readLE_intToLE_i32 hbc, readLE_intToLE_i32 hbo,
    toI32_emod hbc, toI32_emod hbo, hf]

theorem encodeReg_length (r : RegisterDesc) :
    (encodeReg r).length = sizeReg := by
  rw [encodeReg, sizeReg]
  simp [natToLE_length, intToLE_length]

theorem decodeOperand_ok {bs : List Nat} {o rest}
    (h : decodeOperand bs = .ok (o, rest)) :
    WFOperand o ∧ bs.length = sizeOperand o + rest.length := by
  rw [decodeOperand] at h
  simp only [bind_eq_ok, Prod.exists] at h
  obtain ⟨tag, bs1, h1, h⟩ := h
  have hl1 := (readLE_ok h1).2
  match tag, h with
  | 0, h =>
    simp only [bind_eq_ok, Prod.exists] at h
    obtain ⟨i, bs2, h3, h⟩ := h
    obtain ⟨hi, hl2⟩ := decodeImm_ok h3
    obtain ⟨rfl, rfl⟩ := Prod.mk.injEq .. ▸ Except.ok.inj h
    exact ⟨hi, by rw [sizeOperand]; omega⟩
  | 1, h =>
    simp only [bind_eq_ok, Prod.exists] at h
    obtain ⟨r, bs2, h3, h⟩ := h
    obtain ⟨hr, hl2⟩ := decodeReg_ok h3
    obtain ⟨rfl, rfl⟩ := Prod.mk.injEq .. ▸ Except.ok.inj h
    exact ⟨hr, by rw [sizeOperand]; omega⟩
  | (n + 2), h => exact absurd h (by simp)

theorem decodeOperand_enc {o : Operand} (h : WFOperand o) (t : List Nat) :
    decodeOperand (encodeOperand o ++ t) = .ok (o, t) := by
  cases o with
  | Imm i =>
    have h0 : (0 : Nat) % 2 ^ (8 * 4) = 0 := by norm_num
    simp only [encodeOperand, List.append_assoc, decodeOperand,
      readLE_append, ok_bind, h0, decodeImm_enc (h : WFImm i) t]
  | Reg r =>
    have h1 : (1 : Nat) % 2 ^ (8 * 4) = 1 := by norm_num
    simp only [encodeOperand, List.append_assoc, decodeOperand,
      readLE_append, ok_bind, h1, decodeReg_enc (h : WFReg r) t]

theorem encodeOperand_length (o : Operand) :
    (encodeOperand o).length = sizeOperand o := by
  cases o with
  | Imm i =>
    rw [encodeOperand, sizeOperand]
    simp [natToLE_length, encodeImm_length]
  | Reg r =>
    rw [encodeOperand, sizeOperand]
    simp [natToLE_length, encodeReg_length]

/-! ## Lemmas: operators -/

theorem decodeOps0_mismatch {mk : Op} {cnt : Nat} {bs : List Nat}
    (h : cnt ≠ 0) : decodeOps0 mk cnt bs = .error .operandMismatch := by
  rw [decodeOps0, if_neg h]

theorem decodeOps1_mismatch {mk : Operand → Op} {cnt : Nat} {bs : List Nat}
    (h : cnt ≠ 1) : decodeOps1 mk cnt bs = .error .operandMismatch := by
  rw [decodeOps1, if_neg h]

theorem decodeOps2_mismatch {mk : Operand → Operand → Op} {cnt : Nat}
    {bs : List Nat} (h : cnt ≠ 2) :
    decodeOps2 mk cnt bs = .error .operandMismatch := by
  rw [decodeOps2, if_neg h]

theorem decodeOps3_mismatch {mk : Operand → Operand → Operand → Op}
    {cnt : Nat} {bs : List Nat} (h : cnt ≠ 3) :
    decodeOps3 mk cnt bs = .error .operandMismatch := by
  rw [decodeOps3, if_neg h]

theorem decodeOps0_fwd {mk : Op} {cnt : Nat} {bs op rest}
    (h : decodeOps0 mk cnt bs = .ok (op, rest)) :
    cnt = 0 ∧ op = mk ∧ bs = rest := by
  rw [decodeOps0] at h
  split at h
  · obtain ⟨rfl, rfl⟩ := Prod.mk.injEq .. ▸ Except.ok.inj h
    exact ⟨‹cnt = 0›, rfl, rfl⟩
  · exact absurd h (by simp)

theorem decodeOps1_fwd {mk : Operand → Op} {cnt : Nat} {bs op rest}
    (h : decodeOps1 mk cnt bs = .ok (op, rest)) :
    cnt = 1 ∧ ∃ a, op = mk a ∧ WFOperand a
      ∧ bs.length = sizeOperand a + rest.length := by
  rw [decodeOps1] at h
  split at h
  · simp only [bind_eq_ok, Prod.exists] at h
    obtain ⟨a, bs1, h1, h⟩ := h
    obtain ⟨wa, l1⟩ := decodeOperand_ok h1
    obtain ⟨rfl, rfl⟩ := Prod.mk.injEq .. ▸ Except.ok.inj h
    exact ⟨‹cnt = 1›, a, rfl, wa, by omega⟩
  · exact absurd h (by simp)

theorem decodeOps2_fwd {mk : Operand → Operand → Op} {cnt : Nat}
    {bs op rest} (h : decodeOps2 mk cnt bs = .ok (op, rest)) :
    cnt = 2 ∧ ∃ a b, op = mk a b ∧ WFOperand a ∧ WFOperand b
      ∧ bs.length = sizeOperand a + sizeOperand b + rest.length := by
  rw [decodeOps2] at h
  split at h
  · simp only [bind_eq_ok, Prod.exists] at h
    obtain ⟨a, bs1, h1, b, bs2, h2, h⟩ := h
    obtain ⟨wa, l1⟩ := decodeOperand_ok h1
    obtain ⟨wb, l2⟩ := decodeOperand_ok h2
    obtain ⟨rfl, rfl⟩ := Prod.mk.injEq .. ▸ Except.ok.inj h
    exact ⟨‹cnt = 2›, a, b, rfl, wa, wb, by omega⟩
  · exact absurd h (by simp)

theorem decodeOps3_fwd {mk : Operand → Operand → Operand → Op} {cnt : Nat}
    {bs op rest} (h : decodeOps3 mk cnt bs = .ok (op, rest)) :
    cnt = 3 ∧ ∃ a b c, op = mk a b c ∧ WFOperand a ∧ WFOperand b
      ∧ WFOperand c
      ∧ bs.length = sizeOperand a + sizeOperand b + sizeOperand c
        + rest.length := by
  rw [decodeOps3] at h
  split at h
  · simp only [bind_eq_ok, Prod.exists] at h
    obtain ⟨a, bs1, h1, b, bs2, h2, c, bs3, h3, h⟩ := h
    obtain ⟨wa, l1⟩ := decodeOperand_ok h1
    obtain ⟨wb, l2⟩ := decodeOperand_ok h2
    obtain ⟨wc, l3⟩ := decodeOperand_ok h3
    obtain ⟨rfl, rfl⟩ := Prod.mk.injEq .. ▸ Except.ok.inj h
    exact ⟨‹cnt = 3›, a, b, c, rfl, wa, wb, wc, by omega⟩
  · exact absurd h (by simp)

theorem decodeOps0_enc (mk : Op) (bs : List Nat) :
    decodeOps0 mk 0 bs = .ok (mk, bs) := by
  rw [decodeOps0, if_pos rfl]

theorem decodeOps1_enc {mk : Operand → Op} {o1 : Operand}
    (h1 : WFOperand o1) (t : List Nat) :
    decodeOps1 mk 1 (encodeOperand o1 ++ t) = .ok (mk o1, t) := by
  rw [decodeOps1, if_pos rfl]
  refine stepBind (decodeOperand_enc h1 _) ?_
  rfl

theorem decodeOps2_enc {mk : Operand → Operand → Op} {o1 o2 : Operand}
    (h1 : WFOperand o1) (h2 : WFOperand o2) (t : List Nat) :
    decodeOps2 mk 2 (encodeOperand o1 ++ (encodeOperand o2 ++ t))
      = .ok (mk o1 o2, t) := by
  rw [decodeOps2, if_pos rfl]
  refine stepBind (decodeOperand_enc h1 _) ?_
  refine stepBind (decodeOperand_enc h2 _) ?_
  rfl

theorem decodeOps3_enc {mk : Operand → Operand → Operand → Op}
    {o1 o2 o3 : Operand} (h1 : WFOperand o1) (h2 : WFOperand o2)
    (h3 : WFOperand o3) (t : List Nat) :
    decodeOps3 mk 3
      (encodeOperand o1 ++ (encodeOperand o2 ++ (encodeOperand o3 ++ t)))
      = .ok (mk o1 o2 o3, t) := by
  rw [decodeOps3, if_pos rfl]
  refine stepBind (decodeOperand_enc h1 _) ?_
  refine stepBind (decodeOperand_enc h2 _) ?_
  refine stepBind (decodeOperand_enc h3 _) ?_
  rfl

theorem nameBytes_mod (op : Op) :
    op.nameBytes.map (· % 256) = op.nameBytes := by
  cases op <;> rfl

theorem nameBytes_length_lt (op : Op) :
    op.nameBytes.length < 2 ^ (8 * 4) := by
  cases op <;> simp only [Op.nameBytes] <;> norm_num

theorem operands_length_lt (op : Op) :
    op.operands.length < 2 ^ (8 * 4) := by
  cases op <;> simp only [Op.operands] <;> norm_num

theorem osome_bind {α β : Type} (a : α) (f : α → Option β) :
    (some a >>= f) = f a := rfl

theorem onone_bind {α β : Type} (f : α → Option β) :
    ((none : Option α) >>= f) = none := rfl

theorem encodeU32Checked_lt {n : Nat} (h : n < 2 ^ 32) :
    encodeU32Checked n = some (natToLE 4 n) := by
  rw [encodeU32Checked, if_pos h]

theorem flatten_map_length {α : Type} (f : α → List Nat) (g : α → Nat)
    (hfg : ∀ x, (f x).length = g x) (l : List α) :
    ((l.map f).flatten).length = (l.map g).sum := by
  induction l with
  | nil => rfl
  | cons x xs ih => simp [hfg, ih]

theorem decodeOpBody_unknown {name : List Nat} (cnt : Nat) (bs : List Nat)
    (h : ¬ isKnownName name) :
    decodeOpBody name cnt bs = .error .malformed := by
  simp only [isKnownName, opNames, List.mem_cons, List.not_mem_nil,
    or_false] at h
  push_neg at h
  obtain ⟨n1, n2, n3, n4, n5, n6, n7, n8, n9, n10, n11, n12, n13, n14, n15, n16, n17, n18, n19, n20, n21, n22, n23, n24, n25, n26, n27, n28, n29, n30, n31, n32, n33, n34, n35, n36, n37, n38, n39, n40, n41, n42, n43, n44, n45, n46, n47, n48, n49⟩ := h
  rw [decodeOpBody, if_neg n1, if_neg n2, if_neg n3, if_neg n4, if_neg n5, if_neg n6, if_neg n7, if_neg n8, if_neg n9, if_neg n10, if_neg n11, if_neg n12, if_neg n13, if_neg n14, if_neg n15, if_neg n16, if_neg n17, if_neg n18, if_neg n19, if_neg n20, if_neg n21, if_neg n22, if_neg n23, if_neg n24, if_neg n25, if_neg n26, if_neg n27, if_neg n28, if_neg n29, if_neg n30, if_neg n31, if_neg n32, if_neg n33, if_neg n34, if_neg n35, if_neg n36, if_neg n37, if_neg n38, if_neg n39, if_neg n40, if_neg n41, if_neg n42, if_neg n43, if_neg n44, if_neg n45, if_neg n46, if_neg n47, if_neg n48, if_neg n49]

theorem decodeOpBody_mismatch {name : List Nat} {cnt : Nat} (bs : List Nat)
    (hk : isKnownName name) (hc : cnt ≠ canonicalArity name) :
    decodeOpBody name cnt bs = .error .operandMismatch := by
  simp only [isKnownName, opNames, List.mem_cons, List.not_mem_nil,
    or_false] at hk
  rcases hk with rfl | rfl | rfl | rfl | rfl | rfl | rfl | rfl | rfl | rfl | rfl | rfl | rfl | rfl | rfl | rfl | rfl | rfl | rfl | rfl | rfl | rfl | rfl | rfl | rfl | rfl | rfl | rfl | rfl | rfl | rfl | rfl | rfl | rfl | rfl | rfl | rfl | rfl | rfl | rfl | rfl | rfl | rfl | rfl | rfl | rfl | rfl | rfl | rfl
  all_goals rw [decodeOpBody]
  all_goals repeat rw [if_neg (by decide)]
  all_goals rw [if_pos rfl]
  all_goals
    first
    | exact decodeOps0_mismatch (fun e => hc (e.trans (by decide)))
    | exact decodeOps1_mismatch (fun e => hc (e.trans (by decide)))
    | exact decodeOps2_mismatch (fun e => hc (e.trans (by decide)))
    | exact decodeOps3_mismatch (fun e => hc (e.trans (by decide)))

set_option maxHeartbeats 4000000 in
theorem decodeOpBody_fwd {name : List Nat} {cnt : Nat} {bs : List Nat}
    {op : Op} {rest : List Nat}
    (h : decodeOpBody name cnt bs = .ok (op, rest)) :
    name = op.nameBytes ∧ cnt = op.operands.length ∧ WFOp op
      ∧ bs.length = (op.operands.map sizeOperand).sum + rest.length := by
  by_cases hk : isKnownName name
  case neg =>
    rw [decodeOpBody_unknown cnt bs hk] at h
    exact Except.noConfusion h
  case pos =>
    simp only [isKnownName, opNames, List.mem_cons, List.not_mem_nil,
      or_false] at hk
    rcases hk with rfl | rfl | rfl | rfl | rfl | rfl | rfl | rfl | rfl | rfl | rfl | rfl | rfl | rfl | rfl | rfl | rfl | rfl | rfl | rfl | rfl | rfl | rfl | rfl | rfl | rfl | rfl | rfl | rfl | rfl | rfl | rfl | rfl | rfl | rfl | rfl | rfl | rfl | rfl | rfl | rfl | rfl | rfl | rfl | rfl | rfl | rfl | rfl | rfl
    all_goals rw [decodeOpBody] at h
    all_goals repeat rw [if_neg (by decide)] at h
    all_goals rw [if_pos rfl] at h
    all_goals
      first
      | (obtain ⟨hc, a, b, c, heq, wa, wb, wc, hl⟩ := decodeOps3_fwd h
         subst heq
         refine ⟨?_, ?_, ?_, ?_⟩
         · simp only [Op.nameBytes]
         · simp only [Op.operands, List.length_cons, List.length_nil]; omega
         · rw [WFOp]
           intro o ho
           simp only [Op.operands, List.mem_cons, List.not_mem_nil, or_false]
             at ho
           rcases ho with rfl | rfl | rfl <;> assumption
         · simp only [Op.operands, List.map_cons, List.map_nil,
             List.sum_cons, List.sum_nil]
           omega)
      | (obtain ⟨hc, a, b, heq, wa, wb, hl⟩ := decodeOps2_fwd h
         subst heq
         refine ⟨?_, ?_, ?_, ?_⟩
         · simp only [Op.nameBytes]
         · simp only [Op.operands, List.length_cons, List.length_nil]; omega
         · rw [WFOp]
           intro o ho
           simp only [Op.operands, List.mem_cons, List.not_mem_nil, or_false]
             at ho
           rcases ho with rfl | rfl <;> assumption
         · simp only [Op.operands, List.map_cons, List.map_nil,
             List.sum_cons, List.sum_nil]
           omega)
      | (obtain ⟨hc, a, heq, wa, hl⟩ := decodeOps1_fwd h
         subst heq
         refine ⟨?_, ?_, ?_, ?_⟩
         · simp only [Op.nameBytes]
         · simp only [Op.operands, List.length_cons, List.length_nil]; omega
         · rw [WFOp]
           intro o ho
           simp only [Op.operands, List.mem_cons, List.not_mem_nil, or_false]
             at ho
           rcases ho with rfl
           exact wa
         · simp only [Op.operands, List.map_cons, List.map_nil,
             List.sum_cons, List.sum_nil]
           omega)
      | (obtain ⟨hc, heq, hrest⟩ := decodeOps0_fwd h
         subst heq
         subst hrest
         refine ⟨?_, ?_, ?_, ?_⟩
         · simp only [Op.nameBytes]
         · simp only [Op.operands, List.length_nil]; omega
         · rw [WFOp]
           intro o ho
           simp only [Op.operands, List.not_mem_nil] at ho
         · simp only [Op.operands, List.map_nil, List.sum_nil]
           omega)

theorem decodeOpBody_enc {op : Op} (h : WFOp op) (t : List Nat) :
    decodeOpBody op.nameBytes op.operands.length
      ((op.operands.map encodeOperand).flatten ++ t) = .ok (op, t) := by
  cases op
  all_goals
    first
    | (rename_i a b c
       have w1 : WFOperand a := h _ (by simp [Op.operands])
       have w2 : WFOperand b := h _ (by simp [Op.operands])
       have w3 : WFOperand c := h _ (by simp [Op.operands])
       simp only [Op.nameBytes, Op.operands, List.map_cons, List.map_nil,
         List.flatten_cons, List.flatten_nil, List.append_nil,
         List.length_cons, List.length_nil, List.append_assoc, Nat.zero_add,
         Nat.reduceAdd]
       rw [decodeOpBody]
       repeat rw [if_neg (by decide)]
       rw [if_pos rfl]
       exact decodeOps3_enc w1 w2 w3 t)
    | (rename_i a b
       have w1 : WFOperand a := h _ (by simp [Op.operands])
       have w2 : WFOperand b := h _ (by simp [Op.operands])
       simp only [Op.nameBytes, Op.operands, List.map_cons, List.map_nil,
         List.flatten_cons, List.flatten_nil, List.append_nil,
         List.length_cons, List.length_nil, List.append_assoc, Nat.zero_add,
         Nat.reduceAdd]
       rw [decodeOpBody]
       repeat rw [if_neg (by decide)]
       rw [if_pos rfl]
       exact decodeOps2_enc w1 w2 t)
    | (rename_i a
       have w1 : WFOperand a := h _ (by simp [Op.operands])
       simp only [Op.nameBytes, Op.operands, List.map_cons, List.map_nil,
         List.flatten_cons, List.flatten_nil, List.append_nil,
         List.length_cons, List.length_nil, List.append_assoc, Nat.zero_add,
         Nat.reduceAdd]
       rw [decodeOpBody]
       repeat rw [if_neg (by decide)]
       rw [if_pos rfl]
       exact decodeOps1_enc w1 t)
    | (simp only [Op.nameBytes, Op.operands, List.map_nil, List.flatten_nil,
         List.nil_append, List.length_nil]
       rw [decodeOpBody]
       repeat rw [if_neg (by decide)]
       rw [if_pos rfl]
       exact decodeOps0_enc _ _)

theorem encodeOp_eq (op : Op) :
    encodeOp op = some (natToLE 4 op.nameBytes.length ++ op.nameBytes
      ++ natToLE 4 op.operands.length
      ++ (op.operands.map encodeOperand).flatten) := by
  rw [encodeOp, encodeU32Checked_lt (pow84 ▸ nameBytes_length_lt op),
    encodeU32Checked_lt (pow84 ▸ operands_length_lt op)]
  rfl

theorem encodeOp_length {op : Op} {eb : List Nat}
    (h : encodeOp op = some eb) : eb.length = sizeOp op := by
  rw [encodeOp_eq] at h
  obtain rfl := Option.some.inj h
  simp only [List.length_append, natToLE_length,
    flatten_map_length encodeOperand sizeOperand encodeOperand_length,
    sizeOp]

theorem decodeOp_ok {bs : List Nat} {op rest}
    (h : decodeOp bs = .ok (op, rest)) :
    WFOp op ∧ bs.length = sizeOp op + rest.length := by
  rw [decodeOp] at h
  simp only [bind_eq_ok, Prod.exists] at h
  obtain ⟨ns, bs1, h1, name, bs2, h2, cnt, bs3, h3, h⟩ := h
  have hl1 := (readLE_ok h1).2
  obtain ⟨hnl, hl2⟩ := readBytes_ok h2
  have hl3 := (readLE_ok h3).2
  obtain ⟨hname, hcnt, hwf, hl4⟩ := decodeOpBody_fwd h
  refine ⟨hwf, ?_⟩
  rw [sizeOp, ← hname, hnl]
  omega

theorem decodeOp_enc {op : Op} {eb : List Nat} (h : WFOp op)
    (he : encodeOp op = some eb) (t : List Nat) :
    decodeOp (eb ++ t) = .ok (op, t) := by
  rw [encodeOp_eq] at he
  obtain rfl := Option.some.inj he
  rw [decodeOp]
  simp only [List.append_assoc]
  refine stepBind (readLE_append_lt (nameBytes_length_lt op) _) ?_
  refine stepBind (readBytes_append (nameBytes_mod op) _) ?_
  refine stepBind (readLE_append_lt (operands_length_lt op) _) ?_
  exact decodeOpBody_enc h t

/-! ## Lemmas: instructions, lists, conventions, blocks, routines -/

theorem lt32_8 {n : Nat} (h : n < 2 ^ 32) : n < 2 ^ (8 * 4) := by
  rw [pow84]; exact h

theorem lt64_8 {n : Nat} (h : n < 2 ^ 64) : n < 2 ^ (8 * 8) := by
  rw [pow88]; exact h

theorem encodeVip_length8 (v : Vip) : (encodeVip v).length = 8 := by
  rw [encodeVip_length]; rfl

theorem readLE_encodeVip {v : Vip} (h : v.u < 2 ^ 64) (t : List Nat) :
    readLE 8 (encodeVip v ++ t) = .ok (v.u, t) := by
  rw [encodeVip, readLE_append_lt (lt64_8 h)]

theorem sum_map_const {α : Type} (l : List α) (c : Nat) :
    (l.map fun _ => c).sum = c * l.length := by
  induction l with
  | nil => simp
  | cons x xs ih =>
    simp only [List.map_cons, List.sum_cons, ih, List.length_cons,
      Nat.mul_succ]
    omega

theorem decodeInstruction_ok {bs : List Nat} {i rest}
    (h : decodeInstruction bs = .ok (i, rest)) :
    WFInstruction i ∧ bs.length = sizeInstruction i + rest.length := by
  rw [decodeInstruction] at h
  simp only [bind_eq_ok, Prod.exists] at h
  obtain ⟨op, bs1, h1, vip, bs2, h2, spo, bs3, h3, spi, bs4, h4, spr, bs5,
    h5, h⟩ := h
  obtain ⟨hop, hl1⟩ := decodeOp_ok h1
  obtain ⟨hv, hl2⟩ := decodeVip_ok h2
  obtain ⟨hspo, hl3⟩ := readLE_ok h3
  obtain ⟨hspi, hl4⟩ := readLE_ok h4
  have hl5 := (readLE_ok h5).2
  obtain ⟨rfl, rfl⟩ := Prod.mk.injEq .. ▸ Except.ok.inj h
  rw [pow88] at hspo
  rw [pow84] at hspi
  refine ⟨⟨hop, hv, toI64_range hspo, hspi⟩, ?_⟩
  show bs.length = sizeOp op + sizeVip + 8 + 4 + 1 + bs5.length
  omega

theorem encodeInstruction_eq (i : Instruction) :
    encodeInstruction i = some ((natToLE 4 i.op.nameBytes.length
        ++ i.op.nameBytes ++ natToLE 4 i.op.operands.length
        ++ (i.op.operands.map encodeOperand).flatten)
      ++ encodeVip i.vip ++ intToLE 8 i.sp_offset
      ++ natToLE 4 i.sp_index ++ [if i.sp_reset then 1 else 0]) := by
  rw [encodeInstruction, encodeOp_eq]
  rfl

theorem encodeInstruction_some (i : Instruction) :
    ∃ eb, encodeInstruction i = some eb :=
  ⟨_, encodeInstruction_eq i⟩

theorem encodeInstruction_length {i : Instruction} {eb : List Nat}
    (h : encodeInstruction i = some eb) : eb.length = sizeInstruction i := by
  rw [encodeInstruction] at h
  cases ho : encodeOp i.op with
  | none => rw [ho, onone_bind] at h; exact Option.noConfusion h
  | some ob =>
    rw [ho, osome_bind] at h
    obtain rfl := Option.some.inj h
    have hob := encodeOp_length ho
    simp only [List.length_append, encodeVip_length, intToLE_length,
      natToLE_length, List.length_cons, List.length_nil, sizeInstruction]
    omega

theorem decodeInstruction_enc {i : Instruction} {eb : List Nat}
    (h : WFInstruction i) (he : encodeInstruction i = some eb)
    (t : List Nat) : decodeInstruction (eb ++ t) = .ok (i, t) := by
  obtain ⟨op, vip, spo, spi, spr⟩ := i
  obtain ⟨hop, hv, hspo, hspi⟩ := h
  have hspi8 : spi < 2 ^ 32 := hspi
  simp only [encodeInstruction] at he
  cases ho : encodeOp op with
  | none => rw [ho, onone_bind] at he; exact Option.noConfusion he
  | some ob =>
    rw [ho, osome_bind] at he
    obtain rfl := Option.some.inj he
    rw [decodeInstruction]
    simp only [List.append_assoc, List.cons_append, List.nil_append]
    refine stepBind (decodeOp_enc hop ho _) ?_
    refine stepBind (decodeVip_enc hv _) ?_
    refine stepBind (readLE_intToLE_i64 hspo _) ?_
    refine stepBind (readLE_append_lt (lt32_8 hspi8) _) ?_
    refine stepBind (readLE_one _ _) ?_
    rw [toI64_emod hspo]
    cases spr <;> rfl

theorem decodeListN_ok {α : Type} (dec : List Nat → Except Err (α × List Nat))
    (P : α → Prop) (sz : α → Nat)
    (hdec : ∀ {bs x rest}, dec bs = .ok (x, rest) →
      P x ∧ bs.length = sz x + rest.length) :
    ∀ {n : Nat} {bs xs rest}, decodeListN dec n bs = .ok (xs, rest) →
      xs.length = n ∧ (∀ x ∈ xs, P x)
        ∧ bs.length = (xs.map sz).sum + rest.length := by
  intro n
  induction n with
  | zero =>
    intro bs xs rest h
    rw [decodeListN] at h
    obtain ⟨rfl, rfl⟩ := Prod.mk.injEq .. ▸ Except.ok.inj h
    simp
  | succ n ih =>
    intro bs xs rest h
    rw [decodeListN] at h
    simp only [bind_eq_ok, Prod.exists] at h
    obtain ⟨x, bs1, h1, xs1, bs2, h2, h⟩ := h
    obtain ⟨hp, hl1⟩ := hdec h1
    obtain ⟨hlen, hall, hl2⟩ := ih h2
    obtain ⟨rfl, rfl⟩ := Prod.mk.injEq .. ▸ Except.ok.inj h
    refine ⟨by simp [hlen], ?_, ?_⟩
    · intro y hy
      rcases List.mem_cons.mp hy with rfl | hy
      · exact hp
      · exact hall y hy
    · simp only [List.map_cons, List.sum_cons]
      omega

theorem decodeListN_enc_pure {α : Type}
    (dec : List Nat → Except Err (α × List Nat)) (enc : α → List Nat)
    (P : α → Prop)
    (hstep : ∀ {x : α}, P x → ∀ t, dec (enc x ++ t) = .ok (x, t)) :
    ∀ {xs : List α}, (∀ x ∈ xs, P x) → ∀ t,
      decodeListN dec xs.length ((xs.map enc).flatten ++ t)
        = .ok (xs, t) := by
  intro xs
  induction xs with
  | nil =>
    intro _ t
    rw [List.map_nil, List.flatten_nil, List.nil_append, List.length_nil,
      decodeListN]
  | cons x xs ih =>
    intro hall t
    rw [List.map_cons, List.flatten_cons, List.length_cons, decodeListN,
      List.append_assoc]
    refine stepBind (hstep (hall x (by simp)) _) ?_
    refine stepBind (ih (fun y hy => hall y (by simp [hy])) t) ?_
    rfl

theorem decodeListN_enc {α : Type}
    (dec : List Nat → Except Err (α × List Nat))
    (enc : α → Option (List Nat)) (P : α → Prop)
    (hstep : ∀ {x : α} {eb : List Nat}, P x → enc x = some eb →
      ∀ t, dec (eb ++ t) = .ok (x, t)) :
    ∀ {xs : List α} {ebs : List Nat}, (∀ x ∈ xs, P x) →
      encodeList enc xs = some ebs → ∀ t,
      decodeListN dec xs.length (ebs ++ t) = .ok (xs, t) := by
  intro xs
  induction xs with
  | nil =>
    intro ebs _ he t
    rw [encodeList] at he
    obtain rfl := Option.some.inj he
    rw [List.length_nil, decodeListN, List.nil_append]
  | cons x xs ih =>
    intro ebs hall he t
    rw [encodeList] at he
    cases h1 : enc x with
    | none => rw [h1, onone_bind] at he; exact Option.noConfusion he
    | some b =>
      rw [h1, osome_bind] at he
      cases h2 : encodeList enc xs with
      | none => rw [h2, onone_bind] at he; exact Option.noConfusion he
      | some r =>
        rw [h2, osome_bind] at he
        obtain rfl := Option.some.inj he
        rw [List.length_cons, decodeListN, List.append_assoc]
        refine stepBind (hstep (hall x (by simp)) h1 _) ?_
        refine stepBind (ih (fun y hy => hall y (by simp [hy])) h2 t) ?_
        rfl

theorem encodeList_length {α : Type} (enc : α → Option (List Nat))
    (sz : α → Nat) (P : α → Prop)
    (hsz : ∀ {x eb}, P x → enc x = some eb → eb.length = sz x) :
    ∀ {xs : List α} {ebs : List Nat}, (∀ x ∈ xs, P x) →
      encodeList enc xs = some ebs → ebs.length = (xs.map sz).sum := by
  intro xs
  induction xs with
  | nil =>
    intro ebs _ he
    rw [encodeList] at he
    obtain rfl := Option.some.inj he
    rfl
  | cons x xs ih =>
    intro ebs hall he
    rw [encodeList] at he
    cases h1 : enc x with
    | none => rw [h1, onone_bind] at he; exact Option.noConfusion he
    | some b =>
      rw [h1, osome_bind] at he
      cases h2 : encodeList enc xs with
      | none => rw [h2, onone_bind] at he; exact Option.noConfusion he
      | some r =>
        rw [h2, osome_bind] at he
        obtain rfl := Option.some.inj he
        have hr := ih (fun y hy => hall y (by simp [hy])) h2
        simp only [List.length_append, List.map_cons, List.sum_cons,
          hsz (hall x (by simp)) h1, hr]

theorem encodeList_some {α : Type} (enc : α → Option (List Nat))
    (P : α → Prop) (hs : ∀ {x}, P x → ∃ eb, enc x = some eb) :
    ∀ {xs : List α}, (∀ x ∈ xs, P x) →
      ∃ ebs, encodeList enc xs = some ebs := by
  intro xs
  induction xs with
  | nil => intro _; exact ⟨[], rfl⟩
  | cons x xs ih =>
    intro hall
    obtain ⟨b, hb⟩ := hs (hall x (by simp))
    obtain ⟨r, hr⟩ := ih (fun y hy => hall y (by simp [hy]))
    exact ⟨b ++ r, by rw [encodeList, hb, osome_bind, hr, osome_bind]⟩

theorem decodeConvention_ok {bs : List Nat} {c rest}
    (h : decodeConvention bs = .ok (c, rest)) :
    WFConvention c ∧ bs.length = sizeConvention c + rest.length := by
  rw [decodeConvention] at h
  simp only [bind_eq_ok, Prod.exists] at h
  obtain ⟨nv, bs1, h1, vr, bs2, h2, np, bs3, h3, pr, bs4, h4, nr, bs5, h5,
    rr, bs6, h6, fr, bs7, h7, ss, bs8, h8, ps, bs9, h9, h⟩ := h
  obtain ⟨hnv, hl1⟩ := readLE_ok h1
  obtain ⟨hvrlen, hvr, hl2⟩ := decodeListN_ok decodeReg WFReg
    (fun _ => sizeReg) (fun hh => decodeReg_ok hh) h2
  obtain ⟨hnp, hl3⟩ := readLE_ok h3
  obtain ⟨hprlen, hpr, hl4⟩ := decodeListN_ok decodeReg WFReg
    (fun _ => sizeReg) (fun hh => decodeReg_ok hh) h4
  obtain ⟨hnr, hl5⟩ := readLE_ok h5
  obtain ⟨hrrlen, hrr, hl6⟩ := decodeListN_ok decodeReg WFReg
    (fun _ => sizeReg) (fun hh => decodeReg_ok hh) h6
  obtain ⟨hfr, hl7⟩ := decodeReg_ok h7
  obtain ⟨hss, hl8⟩ := readLE_ok h8
  have hl9 := (readLE_ok h9).2
  obtain ⟨rfl, rfl⟩ := Prod.mk.injEq .. ▸ Except.ok.inj h
  rw [pow84] at hnv hnp hnr
  rw [pow88] at hss
  rw [sum_map_const] at hl2 hl4 hl6
  refine ⟨?_, ?_⟩
  · show vr.length < 2 ^ 32 ∧ (∀ r ∈ vr, WFReg r) ∧ pr.length < 2 ^ 32
      ∧ (∀ r ∈ pr, WFReg r) ∧ rr.length < 2 ^ 32 ∧ (∀ r ∈ rr, WFReg r)
      ∧ WFReg fr ∧ ss < 2 ^ 64
    exact ⟨by omega, hvr, by omega, hpr, by omega, hrr, hfr, hss⟩
  · show bs.length = (4 + sizeReg * vr.length) + (4 + sizeReg * pr.length)
      + (4 + sizeReg * rr.length) + sizeReg + 8 + 1 + bs9.length
    omega

theorem encodeConvention_eq {c : RoutineConvention} (h : WFConvention c) :
    encodeConvention c = some (natToLE 4 c.volatile_registers.length
      ++ (c.volatile_registers.map encodeReg).flatten
      ++ natToLE 4 c.param_registers.length
      ++ (c.param_registers.map encodeReg).flatten
      ++ natToLE 4 c.retval_registers.length
      ++ (c.retval_registers.map encodeReg).flatten
      ++ encodeReg c.frame_register ++ natToLE 8 c.shadow_space
      ++ [if c.purge_stack then 1 else 0]) := by
  obtain ⟨h1, -, h2, -, h3, -, -, -⟩ := h
  rw [encodeConvention, encodeU32Checked_lt h1, encodeU32Checked_lt h2,
    encodeU32Checked_lt h3]
  rfl

theorem encodeConvention_some {c : RoutineConvention} (h : WFConvention c) :
    ∃ eb, encodeConvention c = some eb :=
  ⟨_, encodeConvention_eq h⟩

theorem encodeConvention_length {c : RoutineConvention} {eb : List Nat}
    (h : WFConvention c) (he : encodeConvention c = some eb) :
    eb.length = sizeConvention c := by
  rw [encodeConvention_eq h] at he
  obtain rfl := Option.some.inj he
  simp only [List.length_append, natToLE_length,
    flatten_map_length encodeReg (fun _ => sizeReg) encodeReg_length,
    sum_map_const, encodeReg_length, List.length_cons, List.length_nil,
    sizeConvention]
  omega

theorem decodeConvention_enc {c : RoutineConvention} {eb : List Nat}
    (h : WFConvention c) (he : encodeConvention c = some eb)
    (t : List Nat) : decodeConvention (eb ++ t) = .ok (c, t) := by
  obtain ⟨vr, pr, rr, fr, ss, ps⟩ := c
  obtain ⟨hl1, hvr, hl2, hpr, hl3, hrr, hfr, hss⟩ := h
  have h1 : vr.length < 2 ^ 32 := hl1
  have h2 : pr.length < 2 ^ 32 := hl2
  have h3 : rr.length < 2 ^ 32 := hl3
  rw [encodeConvention_eq ⟨hl1, hvr, hl2, hpr, hl3, hrr, hfr, hss⟩] at he
  obtain rfl := Option.some.inj he
  rw [decodeConvention]
  simp only [List.append_assoc, List.cons_append, List.nil_append]
  refine stepBind (readLE_append_lt (lt32_8 h1) _) ?_
  refine stepBind (decodeListN_enc_pure decodeReg encodeReg WFReg
    (fun hx t1 => decodeReg_enc hx t1) hvr _) ?_
  refine stepBind (readLE_append_lt (lt32_8 h2) _) ?_
  refine stepBind (decodeListN_enc_pure decodeReg encodeReg WFReg
    (fun hx t1 => decodeReg_enc hx t1) hpr _) ?_
  refine stepBind (readLE_append_lt (lt32_8 h3) _) ?_
  refine stepBind (decodeListN_enc_pure decodeReg encodeReg WFReg
    (fun hx t1 => decodeReg_enc hx t1) hrr _) ?_
  refine stepBind (decodeReg_enc hfr _) ?_
  refine stepBind (readLE_append_lt (lt64_8 hss) _) ?_
  refine stepBind (readLE_one _ _) ?_
  cases ps <;> rfl

theorem decodeBasicBlock_ok {bs : List Nat} {b rest}
    (h : decodeBasicBlock bs = .ok (b, rest)) :
    WFBasicBlock b ∧ bs.length = sizeBasicBlock b + rest.length := by
  rw [decodeBasicBlock] at h
  simp only [bind_eq_ok, Prod.exists] at h
  obtain ⟨v, bs1, h1, spo, bs2, h2, spi, bs3, h3, lti, bs4, h4, ni, bs5, h5,
    ins, bs6, h6, npv, bs7, h7, pv, bs8, h8, nnv, bs9, h9, nv2, bs10, h10,
    h⟩ := h
  obtain ⟨hv, hl1⟩ := readLE_ok h1
  obtain ⟨hspo, hl2⟩ := readLE_ok h2
  obtain ⟨hspi, hl3⟩ := readLE_ok h3
  obtain ⟨hlti, hl4⟩ := readLE_ok h4
  obtain ⟨hni, hl5⟩ := readLE_ok h5
  obtain ⟨hinslen, hins, hl6⟩ := decodeListN_ok decodeInstruction
    WFInstruction sizeInstruction (fun hh => decodeInstruction_ok hh) h6
  obtain ⟨hnpv, hl7⟩ := readLE_ok h7
  obtain ⟨hpvlen, hpv, hl8⟩ := decodeListN_ok decodeVip
    (fun w => w.u < 2 ^ 64) (fun _ => 8)
    (fun hh => ⟨(decodeVip_ok hh).1, (decodeVip_ok hh).2⟩) h8
  obtain ⟨hnnv, hl9⟩ := readLE_ok h9
  obtain ⟨hnvlen, hnv, hl10⟩ := decodeListN_ok decodeVip
    (fun w => w.u < 2 ^ 64) (fun _ => 8)
    (fun hh => ⟨(decodeVip_ok hh).1, (decodeVip_ok hh).2⟩) h10
  obtain ⟨rfl, rfl⟩ := Prod.mk.injEq .. ▸ Except.ok.inj h
  rw [pow88] at hv hspo
  rw [pow84] at hspi hlti hni hnpv hnnv
  rw [sum_map_const] at hl8 hl10
  refine ⟨?_, ?_⟩
  · show v < 2 ^ 64 ∧ i64Range (toI64 spo) ∧ spi < 2 ^ 32 ∧ lti < 2 ^ 32
      ∧ ins.length < 2 ^ 32 ∧ (∀ i ∈ ins, WFInstruction i)
      ∧ pv.length < 2 ^ 32 ∧ (∀ w ∈ pv, w.u < 2 ^ 64)
      ∧ nv2.length < 2 ^ 32 ∧ (∀ w ∈ nv2, w.u < 2 ^ 64)
    exact ⟨hv, toI64_range hspo, hspi, hlti, by omega, hins, by omega, hpv,
      by omega, hnv⟩
  · show bs.length = 8 + 8 + 4 + 4 + (4 + (ins.map sizeInstruction).sum)
      + (4 + 8 * pv.length) + (4 + 8 * nv2.length) + bs10.length
    omega

theorem encodeBasicBlock_eq {b : BasicBlock} {ins : List Nat}
    (h1 : b.instructions.length < 2 ^ 32) (h2 : b.prev_vip.length < 2 ^ 32)
    (h3 : b.next_vip.length < 2 ^ 32)
    (hins : encodeList encodeInstruction b.instructions = some ins) :
    encodeBasicBlock b = some (encodeVip b.vip ++ intToLE 8 b.sp_offset
      ++ natToLE 4 b.sp_index ++ natToLE 4 b.last_temporary_index
      ++ natToLE 4 b.instructions.length ++ ins
      ++ natToLE 4 b.prev_vip.length ++ (b.prev_vip.map encodeVip).flatten
      ++ natToLE 4 b.next_vip.length
      ++ (b.next_vip.map encodeVip).flatten) := by
  simp only [encodeBasicBlock, encodeU32Checked_lt h1,
    encodeU32Checked_lt h2, encodeU32Checked_lt h3, hins, osome_bind]

theorem encodeBasicBlock_some {b : BasicBlock} (h : WFBasicBlock b) :
    ∃ eb, encodeBasicBlock b = some eb := by
  obtain ⟨-, -, -, -, h1, -, h2, -, h3, -⟩ := h
  obtain ⟨ins, hins⟩ : ∃ i, encodeList encodeInstruction b.instructions
      = some i :=
    encodeList_some encodeInstruction (fun _ => True)
      (fun _ => encodeInstruction_some _) (fun _ _ => trivial)
  exact ⟨_, encodeBasicBlock_eq h1 h2 h3 hins⟩

theorem encodeBasicBlock_length {b : BasicBlock} {eb : List Nat}
    (h : WFBasicBlock b) (he : encodeBasicBlock b = some eb) :
    eb.length = sizeBasicBlock b := by
  obtain ⟨-, -, -, -, h1, -, h2, -, h3, -⟩ := h
  cases hins : encodeList encodeInstruction b.instructions with
  | none =>
    rw [encodeBasicBlock, encodeU32Checked_lt h1, osome_bind, hins,
      onone_bind] at he
    exact Option.noConfusion he
  | some ins =>
    rw [encodeBasicBlock_eq h1 h2 h3 hins] at he
    obtain rfl := Option.some.inj he
    have hil := encodeList_length encodeInstruction sizeInstruction
      (fun _ => True) (fun _ hh => encodeInstruction_length hh)
      (fun _ _ => trivial) hins
    simp only [List.length_append, encodeVip_length8, intToLE_length,
      natToLE_length,
      flatten_map_length encodeVip (fun _ => 8) encodeVip_length8,
      sum_map_const, hil, sizeBasicBlock, sizeVip]
    omega

theorem decodeBasicBlock_enc {b : BasicBlock} {eb : List Nat}
    (h : WFBasicBlock b) (he : encodeBasicBlock b = some eb)
    (t : List Nat) : decodeBasicBlock (eb ++ t) = .ok (b, t) := by
  obtain ⟨v, spo, spi, lti, ins, pv, nv⟩ := b
  obtain ⟨hv, hspo, hspi, hlti, hl1, hins, hl2, hpv, hl3, hnv⟩ := h
  have h1 : ins.length < 2 ^ 32 := hl1
  have h2 : pv.length < 2 ^ 32 := hl2
  have h3 : nv.length < 2 ^ 32 := hl3
  have hspi8 : spi < 2 ^ 32 := hspi
  have hlti8 : lti < 2 ^ 32 := hlti
  simp only [encodeBasicBlock] at he
  cases hencins : encodeList encodeInstruction ins with
  | none =>
    rw [encodeU32Checked_lt h1, osome_bind, hencins, onone_bind] at he
    exact Option.noConfusion he
  | some insb =>
    rw [encodeU32Checked_lt h1, osome_bind, hencins, osome_bind,
      encodeU32Checked_lt h2, osome_bind, encodeU32Checked_lt h3,
      osome_bind] at he
    obtain rfl := Option.some.inj he
    rw [decodeBasicBlock]
    simp only [List.append_assoc]
    refine stepBind (readLE_encodeVip hv _) ?_
    refine stepBind (readLE_intToLE_i64 hspo _) ?_
    refine stepBind (readLE_append_lt (lt32_8 hspi8) _) ?_
    refine stepBind (readLE_append_lt (lt32_8 hlti8) _) ?_
    refine stepBind (readLE_append_lt (lt32_8 h1) _) ?_
    refine stepBind (decodeListN_enc decodeInstruction encodeInstruction
      WFInstruction (fun hx he1 t1 => decodeInstruction_enc hx he1 t1)
      hins hencins _) ?_
    refine stepBind (readLE_append_lt (lt32_8 h2) _) ?_
    refine stepBind (decodeListN_enc_pure decodeVip encodeVip
      (fun w => w.u < 2 ^ 64) (fun hx t1 => decodeVip_enc hx t1) hpv _) ?_
    refine stepBind (readLE_append_lt (lt32_8 h3) _) ?_
    refine stepBind (decodeListN_enc_pure decodeVip encodeVip
      (fun w => w.u < 2 ^ 64) (fun hx t1 => decodeVip_enc hx t1) hnv _) ?_
    rw [toI64_emod hspo]

theorem decodeRoutine_ok {bs : List Nat} {r rest}
    (h : decodeRoutine bs = .ok (r, rest)) :
    WFRoutine r ∧ bs.length = sizeRoutine r + rest.length := by
  rw [decodeRoutine] at h
  simp only [bind_eq_ok, Prod.exists] at h
  obtain ⟨hd, bs1, h1, vip, bs2, h2, rc, bs3, h3, sc, bs4, h4, ns, bs5, h5,
    scs, bs6, h6, nb, bs7, h7, blks, bs8, h8, h⟩ := h
  have hl1 := decodeHeader_ok h1
  obtain ⟨hv, hl2⟩ := decodeVip_ok h2
  obtain ⟨hrc, hl3⟩ := decodeConvention_ok h3
  obtain ⟨hsc, hl4⟩ := decodeConvention_ok h4
  obtain ⟨hns, hl5⟩ := readLE_ok h5
  obtain ⟨hscslen, hscs, hl6⟩ := decodeListN_ok decodeConvention
    WFConvention sizeConvention (fun hh => decodeConvention_ok hh) h6
  obtain ⟨hnb, hl7⟩ := readLE_ok h7
  obtain ⟨hblen, hbl, hl8⟩ := decodeListN_ok decodeBasicBlock WFBasicBlock
    sizeBasicBlock (fun hh => decodeBasicBlock_ok hh) h8
  obtain ⟨rfl, rfl⟩ := Prod.mk.injEq .. ▸ Except.ok.inj h
  rw [pow84] at hns hnb
  refine ⟨?_, ?_⟩
  · show vip.u < 2 ^ 64 ∧ WFConvention rc ∧ WFConvention sc
      ∧ scs.length < 2 ^ 32 ∧ (∀ c ∈ scs, WFConvention c)
      ∧ blks.length < 2 ^ 32 ∧ (∀ b ∈ blks, WFBasicBlock b)
    exact ⟨hv, hrc, hsc, by omega, hscs, by omega, hbl⟩
  · show bs.length = sizeHeader + sizeVip + sizeConvention rc
      + sizeConvention sc + (4 + (scs.map sizeConvention).sum)
      + (4 + (blks.map sizeBasicBlock).sum) + bs8.length
    omega

theorem encodeRoutine_eq {r : Routine} {rcb scb scsb blksb : List Nat}
    (h4 : r.spec_subroutine_conventions.length < 2 ^ 32)
    (h6 : r.explored_blocks.length < 2 ^ 32)
    (hrcb : encodeConvention r.routine_convention = some rcb)
    (hscb : encodeConvention r.subroutine_convention = some scb)
    (hscsb : encodeList encodeConvention r.spec_subroutine_conventions
      = some scsb)
    (hblksb : encodeList encodeBasicBlock r.explored_blocks = some blksb) :
    encodeRoutine r = some (encodeHeader r.header ++ encodeVip r.vip
      ++ rcb ++ scb ++ natToLE 4 r.spec_subroutine_conventions.length
      ++ scsb ++ natToLE 4 r.explored_blocks.length ++ blksb) := by
  simp only [encodeRoutine, hrcb, hscb, hscsb, hblksb,
    encodeU32Checked_lt h4, encodeU32Checked_lt h6, osome_bind]

theorem encodeRoutine_some {r : Routine} (h : WFRoutine r) :
    ∃ eb, encodeRoutine r = some eb := by
  obtain ⟨-, hrc, hsc, hns, hscs, hnb, hbl⟩ := h
  obtain ⟨rcb, hrcb⟩ := encodeConvention_some hrc
  obtain ⟨scb, hscb⟩ := encodeConvention_some hsc
  obtain ⟨scsb, hscsb⟩ := encodeList_some encodeConvention WFConvention
    (fun hc => encodeConvention_some hc) hscs
  obtain ⟨blksb, hblksb⟩ := encodeList_some encodeBasicBlock WFBasicBlock
    (fun hb => encodeBasicBlock_some hb) hbl
  exact ⟨_, encodeRoutine_eq hns hnb hrcb hscb hscsb hblksb⟩

theorem encodeRoutine_length {r : Routine} {eb : List Nat}
    (h : WFRoutine r) (he : encodeRoutine r = some eb) :
    eb.length = sizeRoutine r := by
  obtain ⟨-, hrc, hsc, hns, hscs, hnb, hbl⟩ := h
  obtain ⟨rcb, hrcb⟩ := encodeConvention_some hrc
  obtain ⟨scb, hscb⟩ := encodeConvention_some hsc
  obtain ⟨scsb, hscsb⟩ := encodeList_some encodeConvention WFConvention
    (fun hc => encodeConvention_some hc) hscs
  obtain ⟨blksb, hblksb⟩ := encodeList_some encodeBasicBlock WFBasicBlock
    (fun hb => encodeBasicBlock_some hb) hbl
  rw [encodeRoutine_eq hns hnb hrcb hscb hscsb hblksb] at he
  obtain rfl := Option.some.inj he
  have l1 := encodeConvention_length hrc hrcb
  have l2 := encodeConvention_length hsc hscb
  have l3 := encodeList_length encodeConvention sizeConvention WFConvention
    (fun hx he1 => encodeConvention_length hx he1) hscs hscsb
  have l4 := encodeList_length encodeBasicBlock sizeBasicBlock WFBasicBlock
    (fun hx he1 => encodeBasicBlock_length hx he1) hbl hblksb
  simp only [List.length_append, natToLE_length, encodeHeader_length,
    encodeVip_length, l1, l2, l3, l4, sizeRoutine, sizeVip]
  omega

theorem decodeRoutine_enc {r : Routine} {eb : List Nat} (h : WFRoutine r)
    (he : encodeRoutine r = some eb) (t : List Nat) :
    decodeRoutine (eb ++ t) = .ok (r, t) := by
  obtain ⟨hv, hrc, hsc, hns, hscs, hnb, hbl⟩ := h
  obtain ⟨rcb, hrcb⟩ := encodeConvention_some hrc
  obtain ⟨scb, hscb⟩ := encodeConvention_some hsc
  obtain ⟨scsb, hscsb⟩ := encodeList_some encodeConvention WFConvention
    (fun hc => encodeConvention_some hc) hscs
  obtain ⟨blksb, hblksb⟩ := encodeList_some encodeBasicBlock WFBasicBlock
    (fun hb => encodeBasicBlock_some hb) hbl
  rw [encodeRoutine_eq hns hnb hrcb hscb hscsb hblksb] at he
  obtain rfl := Option.some.inj he
  rw [decodeRoutine]
  simp only [List.append_assoc]
  refine stepBind (decodeHeader_enc _ _) ?_
  refine stepBind (decodeVip_enc hv _) ?_
  refine stepBind (decodeConvention_enc hrc hrcb _) ?_
  refine stepBind (decodeConvention_enc hsc hscb _) ?_
  refine stepBind (readLE_append_lt (lt32_8 hns) _) ?_
  refine stepBind (decodeListN_enc decodeConvention encodeConvention
    WFConvention (fun hx he1 t1 => decodeConvention_enc hx he1 t1)
    hscs hscsb _) ?_
  refine stepBind (readLE_append_lt (lt32_8 hnb) _) ?_
  refine stepBind (decodeListN_enc decodeBasicBlock encodeBasicBlock
    WFBasicBlock (fun hx he1 t1 => decodeBasicBlock_enc hx he1 t1)
    hbl hblksb _) ?_
  rfl

/-! ## Lemmas: instruction builder -/

theorem usizeToI64_small {n : Nat} (h : n < 2 ^ 63) :
    usizeToI64 n = (n : Int) := by
  rw [usizeToI64, toSigned]
  have h64 : n % 2 ^ 64 = n := Nat.mod_eq_of_lt (by omega)
  rw [h64, if_pos (lt_of_lt_of_le h (by norm_num))]

theorem insertInstr_bb (b : Builder) (op : Op) :
    (insertInstr b op).bb = { b.bb with instructions := b.bb.instructions
      ++ [{ op := op, vip := b.vip, sp_offset := b.bb.sp_offset,
            sp_index := b.bb.sp_index, sp_reset := false }] } := by
  rw [insertInstr]
  by_cases hbv : b.vip ≠ Vip.invalid <;> simp [hbv]

theorem insertInstr_vip (b : Builder) (op : Op) :
    (insertInstr b op).vip = Vip.invalid := by
  rw [insertInstr]
  by_cases hbv : b.vip ≠ Vip.invalid
  · simp [hbv]
  · push_neg at hbv
    simp [hbv]

theorem push_nonsp_sp_offset (b : Builder) (op1 : Operand)
    (hsp : ¬ op1.isSPReg) (hs : op1.size < 2 ^ 63) :
    (b.push op1).bb.sp_offset =
      if op1.size % 2 = 0 then b.bb.sp_offset - op1.size
      else b.bb.sp_offset - op1.size - (2 - (op1.size % 2 : Int)) := by
  rw [Builder.push, if_neg hsp, Builder.pushStep]
  simp only [Builder.shiftSp, Builder.str, STACK_ALIGN, usizeToI64_small hs]
  split_ifs <;> simp [insertInstr_bb] <;> omega

theorem push_sp_expand (b : Builder) (op1 : Operand) (h : op1.isSPReg) :
    ∃ tmp : RegisterDesc,
      tmp.flags = flagLOCAL
      ∧ tmp.combined_id = b.bb.last_temporary_index
      ∧ tmp.bit_count = 64
      ∧ ¬ (Operand.Reg tmp).isSPReg
      ∧ Operand.Reg tmp ≠ op1
      ∧ (b.push op1).bb.instructions = b.bb.instructions
          ++ [{ op := .Mov (.Reg tmp) op1, vip := b.vip,
                sp_offset := b.bb.sp_offset, sp_index := b.bb.sp_index,
                sp_reset := false },
              { op := .Str (.Reg RegisterDesc.SP)
                  (.Imm (ImmediateDesc.ofI64 (b.bb.sp_offset - 8) 64))
                  (.Reg tmp),
                vip := Vip.invalid, sp_offset := b.bb.sp_offset - 8,
                sp_index := b.bb.sp_index, sp_reset := false }]
      ∧ (b.push op1).bb.sp_offset = b.bb.sp_offset - 8
      ∧ (∀ i ∈ (b.push op1).bb.instructions.drop b.bb.instructions.length,
          ∀ o1 o2 o3, i.op = .Str o1 o2 o3 → o3 ≠ op1) := by
  have hnsp : ¬ (Operand.Reg
      { flags := flagLOCAL, combined_id := b.bb.last_temporary_index,
        bit_count := 64, bit_offset := 0 } : Operand).isSPReg := fun hc =>
    absurd hc
      (by decide : ¬ (flagLOCAL &&& flagSTACK_POINTER = flagSTACK_POINTER))
  have hneq : (Operand.Reg
      { flags := flagLOCAL, combined_id := b.bb.last_temporary_index,
        bit_count := 64, bit_offset := 0 } : Operand) ≠ op1 := by
    intro heq
    cases op1 with
    | Imm i => exact Operand.noConfusion heq
    | Reg r =>
      injection heq with h2
      subst h2
      exact absurd h
        (by decide : ¬ (flagLOCAL &&& flagSTACK_POINTER = flagSTACK_POINTER))
  have hlist : (b.push op1).bb.instructions = b.bb.instructions
      ++ [{ op := .Mov (.Reg
              { flags := flagLOCAL,
                combined_id := b.bb.last_temporary_index,
                bit_count := 64, bit_offset := 0 }) op1, vip := b.vip,
            sp_offset := b.bb.sp_offset, sp_index := b.bb.sp_index,
            sp_reset := false },
          { op := .Str (.Reg RegisterDesc.SP)
              (.Imm (ImmediateDesc.ofI64 (b.bb.sp_offset - 8) 64))
              (.Reg
                { flags := flagLOCAL,
                  combined_id := b.bb.last_temporary_index,
                  bit_count := 64, bit_offset := 0 }),
            vip := Vip.invalid, sp_offset := b.bb.sp_offset - 8,
            sp_index := b.bb.sp_index, sp_reset := false }] := by
    rw [Builder.push, if_pos h]
    by_cases hbv : b.vip ≠ Vip.invalid
    · simp [BasicBlock.tmp, Builder.mov, Builder.pushStep, Builder.str,
        Builder.shiftSp, STACK_ALIGN, Operand.size, RegisterDesc.size,
        insertInstr, hbv, usizeToI64, toSigned]
      have he : b.bb.sp_offset + -8 = b.bb.sp_offset - 8 := by omega
      exact ⟨by rw [he], he⟩
    · push_neg at hbv
      simp [BasicBlock.tmp, Builder.mov, Builder.pushStep, Builder.str,
        Builder.shiftSp, STACK_ALIGN, Operand.size, RegisterDesc.size,
        insertInstr, hbv, usizeToI64, toSigned]
      have he : b.bb.sp_offset + -8 = b.bb.sp_offset - 8 := by omega
      exact ⟨by rw [he], he⟩
  have hsp : (b.push op1).bb.sp_offset = b.bb.sp_offset - 8 := by
    rw [Builder.push, if_pos h]
    by_cases hbv : b.vip ≠ Vip.invalid
    · simp [BasicBlock.tmp, Builder.mov, Builder.pushStep, Builder.str,
        Builder.shiftSp, STACK_ALIGN, Operand.size, RegisterDesc.size,
        insertInstr, hbv, usizeToI64, toSigned]
      omega
    · push_neg at hbv
      simp [BasicBlock.tmp, Builder.mov, Builder.pushStep, Builder.str,
        Builder.shiftSp, STACK_ALIGN, Operand.size, RegisterDesc.size,
        insertInstr, hbv, usizeToI64, toSigned]
      omega
  refine ⟨_, rfl, rfl, rfl, hnsp, hneq, hlist, hsp, ?_⟩
  intro i hi o1 o2 o3 hop
  rw [hlist, List.drop_left] at hi
  simp only [List.mem_cons, List.not_mem_nil, or_false] at hi
  rcases hi with rfl | rfl
  · exact Op.noConfusion hop
  · injection hop with e1 e2 e3
    exact e3 ▸ hneq

theorem pop_entry_offset (b : Builder) (reg : RegisterDesc)
    (hs : reg.size < 2 ^ 63) :
    ((b.pop reg).bb.sp_offset = b.bb.sp_offset
        + (if reg.size % 2 = 0 then (0 : Int)
           else 2 - (reg.size % 2 : Int)) + reg.size)
    ∧ (b.pop reg).bb.instructions = b.bb.instructions
        ++ [{ op := .Ldd (.Reg reg) (.Reg RegisterDesc.SP)
                (.Imm (ImmediateDesc.ofI64 b.bb.sp_offset 64)),
              vip := b.vip,
              sp_offset := b.bb.sp_offset
                + (if reg.size % 2 = 0 then (0 : Int)
                   else 2 - (reg.size % 2 : Int)) + reg.size,
              sp_index := b.bb.sp_index, sp_reset := false }] := by
  rw [Builder.pop]
  simp only [Builder.shiftSp, Builder.ldd, STACK_ALIGN, usizeToI64_small hs]
  constructor
  · split_ifs <;> simp [insertInstr_bb] <;> omega
  · split_ifs <;> simp [insertInstr_bb, Instruction.mk.injEq] <;> omega

/-! ## Lemmas: error paths and raw-word decodes -/

theorem stepIteNeg {c : Prop} [Decidable c] {α : Type} {t e y : α}
    (hc : ¬ c) (h : e = y) : (if c then t else e) = y := by
  rw [if_neg hc, h]

theorem readLE_explicit {k : Nat} (pre t : List Nat) (h : pre.length = k) :
    readLE k (pre ++ t) = .ok (leVal pre, t) := by
  rw [readLE, if_pos (by simp [h]), List.take_left' h, List.drop_left' h]

theorem decodeArch_lt3 {b : Nat} (h : b < 3) (t : List Nat) :
    ∃ a, decodeArch (b :: t) = .ok (a, t) := by
  interval_cases b
  · exact ⟨.Amd64, by rw [decodeArch]; exact stepBind (readLE_one 0 _) rfl⟩
  · exact ⟨.Arm64, by rw [decodeArch]; exact stepBind (readLE_one 1 _) rfl⟩
  · exact ⟨.Virtual, by rw [decodeArch]; exact stepBind (readLE_one 2 _) rfl⟩

theorem decodeArch_big {b : Nat} (h2 : 2 < b) (h256 : b < 256)
    (bs : List Nat) : decodeArch (b :: bs) = .error .malformed := by
  obtain ⟨n, rfl⟩ : ∃ n, b = n + 3 := ⟨b - 3, by omega⟩
  rw [decodeArch]
  refine stepBind (readLE_one _ _) ?_
  rw [Nat.mod_eq_of_lt h256]
  rfl

theorem decodeReg_words {w cid bc bo : Nat} (t : List Nat) (hw : w < 2 ^ 64)
    (hcid : cid < 2 ^ 64) (hchk : cid &&& (0xff <<< 56) ≤ 2)
    (hbc : bc < 2 ^ 32) (hbo : bo < 2 ^ 32) :
    decodeReg (natToLE 8 w ++ natToLE 8 cid ++ natToLE 4 bc
        ++ natToLE 4 bo ++ t)
      = .ok ({ flags := w &&& registerFlagsMask, combined_id := cid,
               bit_count := toI32 bc, bit_offset := toI32 bo }, t) := by
  have hno : ¬ (cid &&& (0xff <<< 56) > 2) := Nat.not_lt.mpr hchk
  rw [decodeReg]
  simp only [List.append_assoc]
  refine stepBind (readLE_append_lt (lt64_8 hw) _) ?_
  refine stepBind (readLE_append_lt (lt64_8 hcid) _) ?_
  refine stepIteNeg hno ?_
  refine stepBind (readLE_append_lt (lt32_8 hbc) _) ?_
  refine stepBind (readLE_append_lt (lt32_8 hbo) _) ?_
  rfl

theorem decodeReg_flags_not_roundtrip (w cid bc bo : Nat) (hw : w < 2 ^ 64)
    (hcid : cid < 2 ^ 64) (hchk : cid &&& (0xff <<< 56) ≤ 2)
    (hbc : bc < 2 ^ 32) (hbo : bo < 2 ^ 32)
    (hne : w &&& registerFlagsMask ≠ w) :
    ∀ r' rest, decodeReg (natToLE 8 w ++ natToLE 8 cid ++ natToLE 4 bc
        ++ natToLE 4 bo ++ []) = .ok (r', rest) →
      encodeReg r' ≠ natToLE 8 w ++ natToLE 8 cid ++ natToLE 4 bc
        ++ natToLE 4 bo := by
  intro r' rest hdec
  rw [decodeReg_words [] hw hcid hchk hbc hbo] at hdec
  obtain ⟨rfl, rfl⟩ := Prod.mk.injEq .. ▸ (Except.ok.inj hdec).symm
  intro hek
  simp only [encodeReg, List.append_assoc] at hek
  have h8 := (List.append_inj hek (by simp [natToLE_length])).1
  have hww := natToLE_leVal_inj
    (lt64_8 (lt_of_le_of_lt (Nat.and_le_left) hw)) (lt64_8 hw) h8
  exact hne hww

theorem encodeU32Checked_some {n : Nat} {x : List Nat}
    (h : encodeU32Checked n = some x) : x = natToLE 4 n := by
  rw [encodeU32Checked] at h
  split at h
  · exact (Option.some.inj h).symm
  · exact Option.noConfusion h

theorem encodeConvention_length_any {c : RoutineConvention} {eb : List Nat}
    (he : encodeConvention c = some eb) : eb.length = sizeConvention c := by
  rw [encodeConvention] at he
  cases h1 : encodeU32Checked c.volatile_registers.length with
  | none => rw [h1, onone_bind] at he; exact Option.noConfusion he
  | some nv =>
    rw [h1, osome_bind] at he
    cases h2 : encodeU32Checked c.param_registers.length with
    | none => rw [h2, onone_bind] at he; exact Option.noConfusion he
    | some np =>
      rw [h2, osome_bind] at he
      cases h3 : encodeU32Checked c.retval_registers.length with
      | none => rw [h3, onone_bind] at he; exact Option.noConfusion he
      | some nr =>
        rw [h3, osome_bind] at he
        obtain rfl := Option.some.inj he
        obtain rfl := encodeU32Checked_some h1
        obtain rfl := encodeU32Checked_some h2
        obtain rfl := encodeU32Checked_some h3
        simp only [List.length_append, natToLE_length,
          flatten_map_length encodeReg (fun _ => sizeReg) encodeReg_length,
          sum_map_const, encodeReg_length, List.length_cons,
          List.length_nil, sizeConvention]
        omega

theorem encodeBasicBlock_length_any {b : BasicBlock} {eb : List Nat}
    (he : encodeBasicBlock b = some eb) : eb.length = sizeBasicBlock b := by
  rw [encodeBasicBlock] at he
  cases h1 : encodeU32Checked b.instructions.length with
  | none => rw [h1, onone_bind] at he; exact Option.noConfusion he
  | some ni =>
    rw [h1, osome_bind] at he
    cases hins : encodeList encodeInstruction b.instructions with
    | none => rw [hins, onone_bind] at he; exact Option.noConfusion he
    | some ins =>
      rw [hins, osome_bind] at he
      cases h2 : encodeU32Checked b.prev_vip.length with
      | none => rw [h2, onone_bind] at he; exact Option.noConfusion he
      | some npv =>
        rw [h2, osome_bind] at he
        cases h3 : encodeU32Checked b.next_vip.length with
        | none => rw [h3, onone_bind] at he; exact Option.noConfusion he
        | some nnv =>
          rw [h3, osome_bind] at he
          obtain rfl := Option.some.inj he
          obtain rfl := encodeU32Checked_some h1
          obtain rfl := encodeU32Checked_some h2
          obtain rfl := encodeU32Checked_some h3
          have hil := encodeList_length encodeInstruction sizeInstruction
            (fun _ => True) (fun _ hh => encodeInstruction_length hh)
            (fun _ _ => trivial) hins
          simp only [List.length_append, encodeVip_length8, intToLE_length,
            natToLE_length,
            flatten_map_length encodeVip (fun _ => 8) encodeVip_length8,
            sum_map_const, hil, sizeBasicBlock, sizeVip]
          omega

theorem encodeRoutine_length_any {r : Routine} {eb : List Nat}
    (he : encodeRoutine r = some eb) : eb.length = sizeRoutine r := by
  rw [encodeRoutine] at he
  cases hrc : encodeConvention r.routine_convention with
  | none => rw [hrc, onone_bind] at he; exact Option.noConfusion he
  | some rcb =>
    rw [hrc, osome_bind] at he
    cases hsc : encodeConvention r.subroutine_convention with
    | none => rw [hsc, onone_bind] at he; exact Option.noConfusion he
    | some scb =>
      rw [hsc, osome_bind] at he
      cases hns : encodeU32Checked r.spec_subroutine_conventions.length with
      | none => rw [hns, onone_bind] at he; exact Option.noConfusion he
      | some ns =>
        rw [hns, osome_bind] at he
        cases hscs : encodeList encodeConvention
            r.spec_subroutine_conventions with
        | none => rw [hscs, onone_bind] at he; exact Option.noConfusion he
        | some scsb =>
          rw [hscs, osome_bind] at he
          cases hnb : encodeU32Checked r.explored_blocks.length with
          | none => rw [hnb, onone_bind] at he; exact Option.noConfusion he
          | some nb =>
            rw [hnb, osome_bind] at he
            cases hblk : encodeList encodeBasicBlock r.explored_blocks with
            | none =>
              rw [hblk, onone_bind] at he
              exact Option.noConfusion he
            | some blksb =>
              rw [hblk, osome_bind] at he
              obtain rfl := Option.some.inj he
              obtain rfl := encodeU32Checked_some hns
              obtain rfl := encodeU32Checked_some hnb
              have l1 := encodeConvention_length_any hrc
              have l2 := encodeConvention_length_any hsc
              have l3 := encodeList_length encodeConvention sizeConvention
                (fun _ => True)
                (fun _ hh => encodeConvention_length_any hh)
                (fun _ _ => trivial) hscs
              have l4 := encodeList_length encodeBasicBlock sizeBasicBlock
                (fun _ => True)
                (fun _ hh => encodeBasicBlock_length_any hh)
                (fun _ _ => trivial) hblk
              simp only [List.length_append, natToLE_length,
                encodeHeader_length, encodeVip_length, l1, l2, l3, l4,
                sizeRoutine, sizeVip]
              omega

/-! ## Claim theorems -/

/-- C1: every routine produced by the decoder survives an encode-decode
round trip: the encoder succeeds on it and decoding the produced bytes
returns a routine equal (hence structurally equal, field by field and
sequence by sequence) to the original, consuming exactly those bytes. -/
theorem c1_decode_encode_roundtrip {bs : List Nat} {R : Routine}
    {rest : List Nat} (h : decodeRoutine bs = .ok (R, rest)) :
    ∃ eb, encodeRoutine R = some eb
      ∧ ∀ t, decodeRoutine (eb ++ t) = .ok (R, t) := by
  have hwf := (decodeRoutine_ok h).1
  obtain ⟨eb, he⟩ := encodeRoutine_some hwf
  exact ⟨eb, he, fun t => decodeRoutine_enc hwf he t⟩

theorem c1_decode_encode_roundtrip_witness :
    ∃ eb, encodeRoutine sampleRoutine = some eb
      ∧ ∀ t, decodeRoutine (eb ++ t) = .ok (sampleRoutine, t) :=
  c1_decode_encode_roundtrip
    (show decodeRoutine sampleBytes = .ok (sampleRoutine, []) by decide)

/-- C2: for the routine and every sub-entity, the bytes written by the
encoder equal the `size_of` precomputation, and the bytes consumed by a
successful decode equal the `size_of` of the decoded value. -/
theorem c2_encode_size_matches :
    (∀ (r : Routine) (eb : List Nat), encodeRoutine r = some eb →
      eb.length = sizeRoutine r)
    ∧ (∀ (bs : List Nat) (r : Routine) (rest : List Nat),
      decodeRoutine bs = .ok (r, rest) →
      bs.length = sizeRoutine r + rest.length)
    ∧ (∀ h : Header, (encodeHeader h).length = sizeHeader)
    ∧ (∀ (bs : List Nat) (h : Header) (rest : List Nat),
      decodeHeader bs = .ok (h, rest) →
      bs.length = sizeHeader + rest.length)
    ∧ (∀ v : Vip, (encodeVip v).length = sizeVip)
    ∧ (∀ (bs : List Nat) (v : Vip) (rest : List Nat),
      decodeVip bs = .ok (v, rest) → bs.length = sizeVip + rest.length)
    ∧ (∀ r : RegisterDesc, (encodeReg r).length = sizeReg)
    ∧ (∀ (bs : List Nat) (r : RegisterDesc) (rest : List Nat),
      decodeReg bs = .ok (r, rest) → bs.length = sizeReg + rest.length)
    ∧ (∀ i : ImmediateDesc, (encodeImm i).length = sizeImm)
    ∧ (∀ (bs : List Nat) (i : ImmediateDesc) (rest : List Nat),
      decodeImm bs = .ok (i, rest) → bs.length = sizeImm + rest.length)
    ∧ (∀ o : Operand, (encodeOperand o).length = sizeOperand o)
    ∧ (∀ (bs : List Nat) (o : Operand) (rest : List Nat),
      decodeOperand bs = .ok (o, rest) →
      bs.length = sizeOperand o + rest.length)
    ∧ (∀ (op : Op) (eb : List Nat), encodeOp op = some eb →
      eb.length = sizeOp op)
    ∧ (∀ (bs : List Nat) (op : Op) (rest : List Nat),
      decodeOp bs = .ok (op, rest) → bs.length = sizeOp op + rest.length)
    ∧ (∀ (i : Instruction) (eb : List Nat), encodeInstruction i = some eb →
      eb.length = sizeInstruction i)
    ∧ (∀ (bs : List Nat) (i : Instruction) (rest : List Nat),
      decodeInstruction bs = .ok (i, rest) →
      bs.length = sizeInstruction i + rest.length)
    ∧ (∀ (b : BasicBlock) (eb : List Nat), encodeBasicBlock b = some eb →
      eb.length = sizeBasicBlock b)
    ∧ (∀ (bs : List Nat) (b : BasicBlock) (rest : List Nat),
      decodeBasicBlock bs = .ok (b, rest) →
      bs.length = sizeBasicBlock b + rest.length)
    ∧ (∀ (c : RoutineConvention) (eb : List Nat),
      encodeConvention c = some eb → eb.length = sizeConvention c)
    ∧ (∀ (bs : List Nat) (c : RoutineConvention) (rest : List Nat),
      decodeConvention bs = .ok (c, rest) →
      bs.length = sizeConvention c + rest.length) := by
  refine ⟨?_, ?_, ?_, ?_, ?_, ?_, ?_, ?_, ?_, ?_, ?_, ?_, ?_, ?_, ?_, ?_,
    ?_, ?_, ?_, ?_⟩
  · exact fun r eb he => encodeRoutine_length_any he
  · exact fun bs r rest h => (decodeRoutine_ok h).2
  · exact fun h => encodeHeader_length h
  · exact fun bs h rest hd => decodeHeader_ok hd
  · exact fun v => encodeVip_length v
  · exact fun bs v rest h => (decodeVip_ok h).2
  · exact fun r => encodeReg_length r
  · exact fun bs r rest h => (decodeReg_ok h).2
  · exact fun i => encodeImm_length i
  · exact fun bs i rest h => (decodeImm_ok h).2
  · exact fun o => encodeOperand_length o
  · exact fun bs o rest h => (decodeOperand_ok h).2
  · exact fun op eb he => encodeOp_length he
  · exact fun bs op rest h => (decodeOp_ok h).2
  · exact fun i eb he => encodeInstruction_length he
  · exact fun bs i rest h => (decodeInstruction_ok h).2
  · exact fun b eb he => encodeBasicBlock_length_any he
  · exact fun bs b rest h => (decodeBasicBlock_ok h).2
  · exact fun c eb he => encodeConvention_length_any he
  · exact fun bs c rest h => (decodeConvention_ok h).2

theorem c2_encode_size_matches_witness :
    ([0x56, 0x54, 0x49, 0x4c, 0, 0, 0xad, 0xde] : List Nat).length
      = sizeHeader + ([] : List Nat).length :=
  c2_encode_size_matches.2.2.2.1 _ { arch_id := .Amd64 } [] (by decide)

/-- C3: architecture bytes outside {0,1,2} are rejected as claimed, but
the combined_id validation diverges from the claim: the decoder compares
the unshifted `combined_id &&& (0xff <<< 56)` against 2, so an input whose
top byte after the 56-bit shift is 1 (which is at most 2 and should pass
the claimed validation) is rejected with `Malformed`. -/
theorem c3_arch_bounds_and_combined_id_check :
    (∀ b bs, 2 < b → b < 256 → decodeArch (b :: bs) = .error .malformed)
    ∧ (0x0100000000000000 : Nat) >>> 56 = 1
    ∧ decodeReg ([0, 0, 0, 0, 0, 0, 0, 0] ++ [0, 0, 0, 0, 0, 0, 0, 1]
        ++ [0, 0, 0, 0] ++ [0, 0, 0, 0]) = .error .malformed := by
  refine ⟨?_, by decide, by decide⟩
  intro b bs h2 h256
  exact decodeArch_big h2 h256 bs

theorem c3_arch_bounds_and_combined_id_check_witness :
    decodeArch (3 :: []) = .error .malformed :=
  c3_arch_bounds_and_combined_id_check.1 3 [] (by decide) (by decide)

/-- C4: a known mnemonic whose wire operand count differs from its
canonical arity decodes to `OperandMismatch`; an unknown mnemonic decodes
to `Malformed`; and a successful decode reconstructs an `Op` whose operand
count equals the wire operand-count field. -/
theorem c4_operand_count_validation :
    (∀ (name : List Nat) (cnt : Nat) (bs : List Nat), isKnownName name →
      cnt ≠ canonicalArity name →
      decodeOpBody name cnt bs = .error .operandMismatch)
    ∧ (∀ (name : List Nat) (cnt : Nat) (bs : List Nat), ¬ isKnownName name →
      decodeOpBody name cnt bs = .error .malformed)
    ∧ (∀ (name : List Nat) (cnt : Nat) (bs : List Nat) (op : Op)
      (rest : List Nat), decodeOpBody name cnt bs = .ok (op, rest) →
      cnt = op.operands.length) :=
  ⟨fun _ _ bs hk hc => decodeOpBody_mismatch bs hk hc,
   fun _ cnt bs hk => decodeOpBody_unknown cnt bs hk,
   fun _ _ _ _ _ h => (decodeOpBody_fwd h).2.1⟩

theorem c4_operand_count_validation_witness :
    decodeOpBody [109, 111, 118] 3 [] = .error .operandMismatch
    ∧ decodeOpBody [120, 121, 122, 122, 121] 0 [] = .error .malformed :=
  ⟨c4_operand_count_validation.1 [109, 111, 118] 3 [] (by decide)
     (by decide),
   c4_operand_count_validation.2.1 [120, 121, 122, 122, 121] 0 []
     (by decide)⟩

/-- C5: an 8-byte-or-longer input whose first four bytes are not
`56 54 49 4C`, or whose bytes at offsets 6..8 are not `AD DE`, fails with
`Malformed`; when both magics match and the architecture byte is valid the
header decodes successfully, consuming exactly the 8 header bytes. -/
theorem c5_header_magic_enforcement (b0 b1 b2 b3 b4 b5 b6 b7 : Nat)
    (t : List Nat) (hb0 : b0 < 256) (hb1 : b1 < 256) (hb2 : b2 < 256)
    (hb3 : b3 < 256) (hb4 : b4 < 256) (hb6 : b6 < 256) (hb7 : b7 < 256) :
    ([b0, b1, b2, b3] ≠ [0x56, 0x54, 0x49, 0x4c] →
      decodeHeader (b0::b1::b2::b3::b4::b5::b6::b7::t) = .error .malformed)
    ∧ ([b6, b7] ≠ [0xad, 0xde] →
      decodeHeader (b0::b1::b2::b3::b4::b5::b6::b7::t) = .error .malformed)
    ∧ ([b0, b1, b2, b3] = [0x56, 0x54, 0x49, 0x4c] →
       [b6, b7] = [0xad, 0xde] → b4 < 3 →
      ∃ hh, decodeHeader (b0::b1::b2::b3::b4::b5::b6::b7::t)
        = .ok (hh, t)) := by
  refine ⟨?_, ?_, ?_⟩
  · intro hne
    have hne2 : ¬ (b0 = 0x56 ∧ b1 = 0x54 ∧ b2 = 0x49 ∧ b3 = 0x4c) := by
      intro ⟨e0, e1, e2, e3⟩
      exact hne (by rw [e0, e1, e2, e3])
    have hm : ¬ (leVal [b0, b1, b2, b3] = VTIL_MAGIC_1) := by
      simp only [leVal, VTIL_MAGIC_1]
      omega
    rw [decodeHeader]
    refine stepBind (readLE_explicit [b0, b1, b2, b3] _ rfl) ?_
    exact stepIteNeg hm rfl
  · intro hne
    rw [decodeHeader]
    refine stepBind (readLE_explicit [b0, b1, b2, b3] _ rfl) ?_
    by_cases hm : leVal [b0, b1, b2, b3] = VTIL_MAGIC_1
    · refine stepIte hm ?_
      rcases Nat.lt_or_ge b4 3 with h4 | h4
      · obtain ⟨a, ha⟩ := decodeArch_lt3 h4 (b5 :: b6 :: b7 :: t)
        refine stepBind ha ?_
        refine stepBind (readLE_one b5 _) ?_
        refine stepBind (readLE_explicit [b6, b7] _ rfl) ?_
        have hne2 : ¬ (b6 = 0xad ∧ b7 = 0xde) := by
          intro ⟨e6, e7⟩
          exact hne (by rw [e6, e7])
        have hm2 : ¬ (leVal [b6, b7] = VTIL_MAGIC_2) := by
          simp only [leVal, VTIL_MAGIC_2]
          omega
        exact stepIteNeg hm2 rfl
      · rw [decodeArch_big (by omega) hb4, error_bind]
    · exact stepIteNeg hm rfl
  · intro hm1 hm2 h4
    obtain ⟨a, ha⟩ := decodeArch_lt3 h4 (b5 :: b6 :: b7 :: t)
    refine ⟨⟨a⟩, ?_⟩
    rw [decodeHeader]
    refine stepBind (readLE_explicit [b0, b1, b2, b3] _ rfl) ?_
    refine stepIte (by rw [hm1]; decide) ?_
    refine stepBind ha ?_
    refine stepBind (readLE_one b5 _) ?_
    refine stepBind (readLE_explicit [b6, b7] _ rfl) ?_
    refine stepIte (by rw [hm2]; decide) ?_
    rfl

theorem c5_header_magic_enforcement_witness :
    ([0, 0, 0, 0] ≠ ([0x56, 0x54, 0x49, 0x4c] : List Nat))
    ∧ decodeHeader [0, 0, 0, 0, 0, 0, 0, 0] = .error .malformed :=
  ⟨by decide,
   (c5_header_magic_enforcement 0 0 0 0 0 0 0 0 [] (by decide) (by decide)
     (by decide) (by decide) (by decide) (by decide) (by decide)).1
     (by decide)⟩

/-- C6: for a non-stack-pointer operand, `push` lowers the block's
`sp_offset` by the operand size plus the `2 - size % 2` padding when the
size is odd, and by exactly the size when it is even; pushing the 1-byte
immediate `0xAB` on a fresh block ends at `sp_offset = -2` having appended
exactly a zero-fill `Str` (bit count 8) at offset `-1` and the operand
`Str` at offset `-2`. -/
theorem c6_push_stack_shift :
    (∀ (b : Builder) (op1 : Operand), ¬ op1.isSPReg → op1.size < 2 ^ 63 →
      (b.push op1).bb.sp_offset =
        if op1.size % 2 = 0 then b.bb.sp_offset - op1.size
        else b.bb.sp_offset - op1.size - (2 - (op1.size % 2 : Int)))
    ∧ ((Builder.from emptyBlock).push
        (.Imm (ImmediateDesc.ofU64 0xAB 8))).bb.sp_offset = -2
    ∧ ((Builder.from emptyBlock).push
        (.Imm (ImmediateDesc.ofU64 0xAB 8))).bb.instructions
      = [{ op := .Str (.Reg RegisterDesc.SP)
             (.Imm (ImmediateDesc.ofI64 (-1) 64))
             (.Imm (ImmediateDesc.ofU64 0 8)),
           vip := Vip.invalid, sp_offset := -1, sp_index := 0,
           sp_reset := false },
         { op := .Str (.Reg RegisterDesc.SP)
             (.Imm (ImmediateDesc.ofI64 (-2) 64))
             (.Imm (ImmediateDesc.ofU64 0xAB 8)),
           vip := Vip.invalid, sp_offset := -2, sp_index := 0,
           sp_reset := false }] :=
  ⟨push_nonsp_sp_offset, by decide, by decide⟩

theorem c6_push_stack_shift_witness :
    ((Builder.from emptyBlock).push
        (.Imm (ImmediateDesc.ofU64 5 16))).bb.sp_offset =
      if (Operand.Imm (ImmediateDesc.ofU64 5 16)).size % 2 = 0
      then (Builder.from emptyBlock).bb.sp_offset
        - (Operand.Imm (ImmediateDesc.ofU64 5 16)).size
      else (Builder.from emptyBlock).bb.sp_offset
        - (Operand.Imm (ImmediateDesc.ofU64 5 16)).size
        - (2 - ((Operand.Imm (ImmediateDesc.ofU64 5 16)).size % 2 : Int)) :=
  c6_push_stack_shift.1 (Builder.from emptyBlock)
    (.Imm (ImmediateDesc.ofU64 5 16)) (by decide) (by decide)

/-- C7: pushing a stack-pointer operand never stores that operand with a
`Str`: the expansion first moves the stack pointer into a fresh 64-bit
LOCAL temporary (combined id = the block's `last_temporary_index`) and then
pushes the temporary; concretely, `push(SP)` on a fresh block emits
`Mov tmp0, SP` then `Str SP, imm(-8), tmp0` and leaves `sp_offset = -8`. -/
theorem c7_push_sp_rewrite :
    (∀ (b : Builder) (op1 : Operand), op1.isSPReg →
      ∃ tmp : RegisterDesc,
        tmp.flags = flagLOCAL
        ∧ tmp.combined_id = b.bb.last_temporary_index
        ∧ tmp.bit_count = 64
        ∧ ¬ (Operand.Reg tmp).isSPReg
        ∧ Operand.Reg tmp ≠ op1
        ∧ (b.push op1).bb.instructions = b.bb.instructions
            ++ [{ op := .Mov (.Reg tmp) op1, vip := b.vip,
                  sp_offset := b.bb.sp_offset, sp_index := b.bb.sp_index,
                  sp_reset := false },
                { op := .Str (.Reg RegisterDesc.SP)
                    (.Imm (ImmediateDesc.ofI64 (b.bb.sp_offset - 8) 64))
                    (.Reg tmp),
                  vip := Vip.invalid, sp_offset := b.bb.sp_offset - 8,
                  sp_index := b.bb.sp_index, sp_reset := false }]
        ∧ (b.push op1).bb.sp_offset = b.bb.sp_offset - 8
        ∧ (∀ i ∈ (b.push op1).bb.instructions.drop
              b.bb.instructions.length,
            ∀ o1 o2 o3, i.op = .Str o1 o2 o3 → o3 ≠ op1))
    ∧ ((Builder.from emptyBlock).push
        (.Reg RegisterDesc.SP)).bb.instructions
      = [{ op := .Mov (.Reg
             { flags := flagLOCAL, combined_id := 0, bit_count := 64,
               bit_offset := 0 }) (.Reg RegisterDesc.SP),
           vip := Vip.invalid, sp_offset := 0, sp_index := 0,
           sp_reset := false },
         { op := .Str (.Reg RegisterDesc.SP)
             (.Imm (ImmediateDesc.ofI64 (-8) 64))
             (.Reg
               { flags := flagLOCAL, combined_id := 0, bit_count := 64,
                 bit_offset := 0 }),
           vip := Vip.invalid, sp_offset := -8, sp_index := 0,
           sp_reset := false }]
    ∧ ((Builder.from emptyBlock).push (.Reg RegisterDesc.SP)).bb.sp_offset
        = -8
    ∧ ((Builder.from emptyBlock).push
        (.Reg RegisterDesc.SP)).bb.last_temporary_index = 1 :=
  ⟨fun b op1 h => push_sp_expand b op1 h, by decide, by decide, by decide⟩

theorem c7_push_sp_rewrite_witness :
    ((Builder.from emptyBlock).push (.Reg RegisterDesc.SP)).bb.sp_offset
      = (Builder.from emptyBlock).bb.sp_offset - 8 := by
  obtain ⟨tmp, -, -, -, -, -, -, hsp, -⟩ :=
    c7_push_sp_rewrite.1 (Builder.from emptyBlock) (.Reg RegisterDesc.SP)
      (by decide)
  exact hsp

/-- C8 (amended): `pop(reg)` first applies the misalignment shift
`+(2 - size % 2)` when the size is odd and then shifts by `+size`, but the
single emitted `Ldd` uses the `sp_offset` captured at ENTRY to `pop` — 
before the misalignment shift — not the post-misalignment offset the
original claim describes. -/
theorem c8_pop_offset_capture (b : Builder) (reg : RegisterDesc)
    (hs : reg.size < 2 ^ 63) :
    ((b.pop reg).bb.sp_offset = b.bb.sp_offset
        + (if reg.size % 2 = 0 then (0 : Int)
           else 2 - (reg.size % 2 : Int)) + reg.size)
    ∧ (b.pop reg).bb.instructions = b.bb.instructions
        ++ [{ op := .Ldd (.Reg reg) (.Reg RegisterDesc.SP)
                (.Imm (ImmediateDesc.ofI64 b.bb.sp_offset 64)),
              vip := b.vip,
              sp_offset := b.bb.sp_offset
                + (if reg.size % 2 = 0 then (0 : Int)
                   else 2 - (reg.size % 2 : Int)) + reg.size,
              sp_index := b.bb.sp_index, sp_reset := false }] :=
  pop_entry_offset b reg hs

theorem c8_pop_offset_capture_witness :
    ((Builder.from emptyBlock).pop reg8).bb.sp_offset
      = (Builder.from emptyBlock).bb.sp_offset
        + (if reg8.size % 2 = 0 then (0 : Int)
           else 2 - (reg8.size % 2 : Int)) + reg8.size :=
  (c8_pop_offset_capture (Builder.from emptyBlock) reg8 (by decide)).1

/-- C8 counterexample: popping an 8-bit register on a fresh block emits an
`Ldd` whose immediate offset is 0 — the entry `sp_offset` — whereas
capturing the offset after the misalignment shift, as the claim states,
would predict offset 1. -/
theorem c8_pop_offset_capture_counterexample :
    ((Builder.from emptyBlock).pop reg8).bb.instructions.map
        (fun i => i.op)
      = [.Ldd (.Reg reg8) (.Reg RegisterDesc.SP)
          (.Imm (ImmediateDesc.ofI64 0 64))]
    ∧ ImmediateDesc.ofI64 0 64 ≠ ImmediateDesc.ofI64 1 64 := by decide

/-- C9: `pushf` is `push(FLAGS)` as claimed, but `popf` is NOT shorthand
for `pop(FLAGS)`: its body also calls `push(FLAGS)`, so on a fresh block
`popf` moves `sp_offset` to `-8` while `pop(FLAGS)` moves it to `+8`, and
the two resulting builder states differ. -/
theorem c9_popf_pushes :
    (∀ b : Builder, b.pushf = b.push (.Reg RegisterDesc.FLAGS))
    ∧ (∀ b : Builder, b.popf = b.push (.Reg RegisterDesc.FLAGS))
    ∧ ((Builder.from emptyBlock).popf).bb.sp_offset = -8
    ∧ ((Builder.from emptyBlock).pop RegisterDesc.FLAGS).bb.sp_offset = 8
    ∧ (Builder.from emptyBlock).popf
        ≠ (Builder.from emptyBlock).pop RegisterDesc.FLAGS :=
  ⟨fun _ => rfl, fun _ => rfl, by decide, by decide, by decide⟩

/-- C10: the decoder truncates the 64-bit flags word to the defined bits
0..8 (`&&& 0x1FF`); a record using only defined bits decodes back from its
own encoding unchanged, while a flags word with any undefined bit set
yields a decoded register whose re-encoding differs from the original
bytes. -/
theorem c10_register_flags_truncation :
    (∀ w cid bc bo (t : List Nat), w < 2 ^ 64 → cid < 2 ^ 64 →
      cid &&& (0xff <<< 56) ≤ 2 → bc < 2 ^ 32 → bo < 2 ^ 32 →
      decodeReg (natToLE 8 w ++ natToLE 8 cid ++ natToLE 4 bc
          ++ natToLE 4 bo ++ t)
        = .ok ({ flags := w &&& registerFlagsMask, combined_id := cid,
                 bit_count := toI32 bc, bit_offset := toI32 bo }, t))
    ∧ (∀ r : RegisterDesc, WFReg r →
      decodeReg (encodeReg r ++ []) = .ok (r, []))
    ∧ (∀ w cid bc bo, w < 2 ^ 64 → cid < 2 ^ 64 →
      cid &&& (0xff <<< 56) ≤ 2 → bc < 2 ^ 32 → bo < 2 ^ 32 →
      w &&& registerFlagsMask ≠ w →
      ∀ r' rest, decodeReg (natToLE 8 w ++ natToLE 8 cid ++ natToLE 4 bc
          ++ natToLE 4 bo ++ []) = .ok (r', rest) →
        encodeReg r' ≠ natToLE 8 w ++ natToLE 8 cid ++ natToLE 4 bc
          ++ natToLE 4 bo) :=
  ⟨fun w cid bc bo t hw hcid hchk hbc hbo =>
     decodeReg_words t hw hcid hchk hbc hbo,
   fun r hr => decodeReg_enc hr [],
   fun w cid bc bo hw hcid hchk hbc hbo hne =>
     decodeReg_flags_not_roundtrip w cid bc bo hw hcid hchk hbc hbo hne⟩

theorem c10_register_flags_truncation_witness :
    decodeReg (natToLE 8 0x3FF ++ natToLE 8 0 ++ natToLE 4 0
        ++ natToLE 4 0 ++ [])
      = .ok ({ flags := 0x3FF &&& registerFlagsMask, combined_id := 0,
               bit_count := toI32 0, bit_offset := toI32 0 }, []) :=
  c10_register_flags_truncation.1 0x3FF 0 0 0 [] (by decide) (by decide)
    (by decide) (by decide) (by decide)

end VTILV
